import Mathlib

/-!
Verification development for the embedded-runner repository.

The definitions in this file are shallow embeddings of the Rust source:
  * `coverage.rs` — `coverage_from_defmt_frames`, `drain_covered_traces`,
    the test-marker regex and the per-test coverage accumulator;
  * `defmt.rs` — the stream read/decode loops of `read_defmt_frames`;
  * `lib.rs` — the readiness scan and process-wait loops of
    `run_gdb_sequence` and the coverage-write stage of the run command.

Modelling conventions:
  * Rust machine integers are `Nat`/`Int`; overflow checks are explicit
    (`parseU32` models `str::parse::<u32>`).
  * `HashMap`/`HashSet` are insertion-ordered association lists / lists
    without duplicates (hash iteration order is unspecified in Rust; the
    insertion order is one faithful refinement of it).
  * Fallible code returns `Except`; a Rust `panic!`/`expect` failure is the
    explicit outcome `CovFail.panicked`.
  * Stateful loops driven by I/O are step functions over explicit traces of
    the events the loop can observe (bytes read, decode results, poll
    results, elapsed milliseconds at a check).
-/

namespace EmbeddedRunner

/-! ## Data model (defmt_json_schema v1 and mantra_schema types)

Only the fields read by the embedded functions are modelled; `JsonFrame`
fields `level` and `target_timestamp` are never read by
`coverage_from_defmt_frames` and are omitted. -/

/-- defmt_json_schema v1 `ModulePath`: crate, nested modules, function. -/
structure ModulePath where
  crate_name : String
  modules : List String
  function : String
deriving DecidableEq

/-- defmt_json_schema v1 `Location`: optional file, line and module path. -/
structure JsonLocation where
  file : Option String
  line : Option Nat
  module_path : Option ModulePath
deriving DecidableEq

/-- defmt_json_schema v1 `JsonFrame` (the fields read by the coverage
extractor: message text, host timestamp in nanoseconds as i64, location). -/
structure DefmtFrame where
  data : String
  host_timestamp : Int
  location : JsonLocation
deriving DecidableEq

/-- mantra_schema `TestState`. -/
inductive TestState where
  | passed
  | failed
  | skipped (reason : Option String)
deriving DecidableEq

/-- mantra_schema `CoveredFileTrace`: requirement ids covered at one line. -/
structure CoveredFileTrace where
  req_ids : List String
  line : Nat
deriving DecidableEq

/-- mantra_schema `CoveredFile`. -/
structure CoveredFile where
  filepath : String
  covered_traces : List CoveredFileTrace
  covered_lines : List Nat
deriving DecidableEq

/-- mantra_schema `Test`. -/
structure Test where
  name : String
  filepath : String
  line : Nat
  state : TestState
  covered_files : List CoveredFile
deriving DecidableEq

/-- mantra_schema `TestRun`.  `date` holds the validated first-frame
timestamp (nanoseconds); `meta` is the serde_json payload passed through
unchanged, modelled as an arbitrary string. -/
structure TestRun where
  name : String
  date : Int
  meta : Option String
  logs : Option String
  tests : List Test
  nr_of_tests : Nat
deriving DecidableEq

/-- mantra_schema `CoverageSchema`. -/
structure CoverageSchema where
  version : Option String
  test_runs : List TestRun
deriving DecidableEq

/-- The version constant of the external mantra_schema crate.  Its exact
value is irrelevant to every claim; it is only stored verbatim. -/
def SCHEMA_VERSION : String := "mantra-schema-version"

/-! ## Timestamp validity (time::OffsetDateTime::from_unix_timestamp_nanos)

The time crate accepts exactly the instants between -9999-01-01T00:00:00Z
and +9999-12-31T23:59:59.999999999Z; the bounds below are those dates in
nanoseconds since the Unix epoch. -/

def minTimestampNanos : Int := -377705116800000000000

def maxTimestampNanos : Int := 253402300799999999999

/-- `OffsetDateTime::from_unix_timestamp_nanos` succeeds exactly on this
range (coverage.rs line 53). -/
def tsValidB (ts : Int) : Bool :=
  decide (minTimestampNanos ≤ ts) && decide (ts ≤ maxTimestampNanos)

/-! ## The test-marker matcher (coverage.rs lines 57-62)

Regex `^\(\d+/(?<nr_tests>\d+)\)\s(?<state>(?:running)|(?:ignoring))\s`
followed by a backtick, `(?<fn_name>.+)`, a backtick and three `.`
wildcards.  `^` anchors at the start of the haystack, `\d` is the Unicode
class `\p{Nd}` (the regex crate's default Unicode mode), `\s` a Unicode
whitespace character, `.` any character other than a newline, and `.+` is
greedy (the capture extends to the last position whose suffix still
matches the backtick and the three wildcards). -/

/-- The backtick character (U+0060). -/
def backtickChar : Char := Char.ofNat 96

/-- Characters matched by the regex class `\s` (Unicode White_Space). -/
def isWsChar (c : Char) : Bool :=
  c == ' ' || c == '\t' || c == '\n' || c == '\r' ||
  c == Char.ofNat 0x0b || c == Char.ofNat 0x0c ||
  c == Char.ofNat 0x85 || c == Char.ofNat 0xa0 ||
  c == Char.ofNat 0x1680 ||
  (Char.ofNat 0x2000 ≤ c && c ≤ Char.ofNat 0x200a) ||
  c == Char.ofNat 0x2028 || c == Char.ofNat 0x2029 ||
  c == Char.ofNat 0x202f || c == Char.ofNat 0x205f ||
  c == Char.ofNat 0x3000

/-- The code point ranges of the Unicode category Nd (decimal number),
the character set of the regex class `\d` in Unicode mode (Unicode
14.0). -/
def ndRanges : List (Nat × Nat) := [
  (0x30, 0x39), (0x660, 0x669), (0x6F0, 0x6F9),
  (0x7C0, 0x7C9), (0x966, 0x96F), (0x9E6, 0x9EF),
  (0xA66, 0xA6F), (0xAE6, 0xAEF), (0xB66, 0xB6F),
  (0xBE6, 0xBEF), (0xC66, 0xC6F), (0xCE6, 0xCEF),
  (0xD66, 0xD6F), (0xDE6, 0xDEF), (0xE50, 0xE59),
  (0xED0, 0xED9), (0xF20, 0xF29), (0x1040, 0x1049),
  (0x1090, 0x1099), (0x17E0, 0x17E9), (0x1810, 0x1819),
  (0x1946, 0x194F), (0x19D0, 0x19D9), (0x1A80, 0x1A89),
  (0x1A90, 0x1A99), (0x1B50, 0x1B59), (0x1BB0, 0x1BB9),
  (0x1C40, 0x1C49), (0x1C50, 0x1C59), (0xA620, 0xA629),
  (0xA8D0, 0xA8D9), (0xA900, 0xA909), (0xA9D0, 0xA9D9),
  (0xA9F0, 0xA9F9), (0xAA50, 0xAA59), (0xABF0, 0xABF9),
  (0xFF10, 0xFF19), (0x104A0, 0x104A9), (0x10D30, 0x10D39),
  (0x11066, 0x1106F), (0x110F0, 0x110F9), (0x11136, 0x1113F),
  (0x111D0, 0x111D9), (0x112F0, 0x112F9), (0x11450, 0x11459),
  (0x114D0, 0x114D9), (0x11650, 0x11659), (0x116C0, 0x116C9),
  (0x11730, 0x11739), (0x118E0, 0x118E9), (0x11950, 0x11959),
  (0x11C50, 0x11C59), (0x11D50, 0x11D59), (0x11DA0, 0x11DA9),
  (0x16A60, 0x16A69), (0x16AC0, 0x16AC9), (0x16B50, 0x16B59),
  (0x1D7CE, 0x1D7FF), (0x1E140, 0x1E149), (0x1E2F0, 0x1E2F9),
  (0x1E950, 0x1E959), (0x1FBF0, 0x1FBF9)]

/-- Characters matched by the regex class `\d` (Unicode `\p{Nd}`). -/
def isNdChar (c : Char) : Bool :=
  ndRanges.any (fun r => decide (r.1 ≤ c.toNat) && decide (c.toNat ≤ r.2))

/-- Maximal run of `\d` characters at the front of the input (`\d+`,
maximal munch: the character after the run is never in `\d`). -/
def takeDigits : List Char → List Char × List Char
  | [] => ([], [])
  | c :: cs =>
    if isNdChar c then
      let (ds, rest) := takeDigits cs
      (c :: ds, rest)
    else ([], c :: cs)

/-- The `state` capture group alternatives. -/
inductive FnState where
  | running
  | ignoring
deriving DecidableEq

/-- Match the `(?:running)|(?:ignoring)` alternation at the front. -/
def matchFnState (cs : List Char) : Option (FnState × List Char) :=
  if cs.take 7 = "running".toList then some (FnState.running, cs.drop 7)
  else if cs.take 8 = "ignoring".toList then some (FnState.ignoring, cs.drop 8)
  else none

/-- Does the input start with a backtick followed by three non-newline
characters (the tail of the pattern after the `fn_name` capture)? -/
def tailMatch : List Char → Bool
  | b :: c1 :: c2 :: c3 :: _ =>
    b == backtickChar && c1 != '\n' && c2 != '\n' && c3 != '\n'
  | _ => false

/-- Greedy `(?<fn_name>.+)` capture: the longest nonempty newline-free
prefix whose remaining suffix satisfies `tailMatch`. -/
def fnNameSplit (cs : List Char) : Option (List Char) :=
  let candidates := (List.range (cs.length + 1)).filter
    (fun p => decide (1 ≤ p) && !(cs.take p).contains '\n' && tailMatch (cs.drop p))
  match candidates.getLast? with
  | some p => some (cs.take p)
  | none => none

/-- The capture groups of the test-marker regex. -/
structure TestFnCapture where
  nr_tests : List Char
  state : FnState
  fn_name : String
deriving DecidableEq

/-- `TEST_FN_MATCHER.captures(&frame.data)` (coverage.rs lines 57-62). -/
def testFnMatch (s : String) : Option TestFnCapture :=
  match s.toList with
  | '(' :: r0 =>
    let (d1, r1) := takeDigits r0
    if d1.isEmpty then none
    else
      match r1 with
      | '/' :: r2 =>
        let (d2, r3) := takeDigits r2
        if d2.isEmpty then none
        else
          match r3 with
          | ')' :: w1 :: r4 =>
            if isWsChar w1 then
              match matchFnState r4 with
              | some (st, r5) =>
                match r5 with
                | w2 :: b :: r6 =>
                  if isWsChar w2 && b == backtickChar then
                    match fnNameSplit r6 with
                    | some nm => some ⟨d2, st, String.mk nm⟩
                    | none => none
                  else none
                | _ => none
              | none => none
            else none
          | _ => none
      | _ => none
  | _ => none

/-- Numeric value of a digit string. -/
def digitsToNat (ds : List Char) : Nat :=
  ds.foldl (fun n c => 10 * n + (c.toNat - 48)) 0

/-- Rust `str::parse::<u32>`: succeeds exactly on a nonempty string of
ASCII digits whose value fits in a u32 — non-ASCII `\p{Nd}` digits
captured by the regex are rejected by `parse`, and coverage.rs lines
83-88 call `.expect` on the result, i.e. panic on either failure. -/
def parseU32 (ds : List Char) : Option Nat :=
  if !ds.isEmpty && ds.all Char.isDigit && digitsToNat ds < 4294967296 then
    some (digitsToNat ds)
  else none

/-! ## The per-test coverage accumulator

`HashMap<PathBuf, HashMap<Line, HashSet<ReqId>>>` modelled as
insertion-ordered association lists; `HashSet` as an insertion-ordered
duplicate-free list. -/

/-- The triple returned by the external coverage extractor
(mantra_rust_macros `CoveredLine`: requirement id, file, line). -/
structure CoveredReq where
  id : String
  file : String
  line : Nat
deriving DecidableEq

abbrev ReqIdSet := List String

abbrev LineTraces := List (Nat × ReqIdSet)

abbrev TraceMap := List (String × LineTraces)

/-- `HashSet::insert`: add the id unless already present. -/
def insertIfAbsent (ids : ReqIdSet) (id : String) : ReqIdSet :=
  if id ∈ ids then ids else ids ++ [id]

/-- Inner `entry(line).or_default().insert(id)` on one file's line map. -/
def updateLine (lt : LineTraces) (line : Nat) (id : String) : LineTraces :=
  match lt with
  | [] => [(line, [id])]
  | (l, ids) :: rest =>
    if l = line then (l, insertIfAbsent ids id) :: rest
    else (l, ids) :: updateLine rest line id

/-- `covered_traces.entry(file).or_default().entry(line).or_default()
.insert(id)` (coverage.rs lines 144-149). -/
def insertCoveredReq (m : TraceMap) (file : String) (line : Nat) (id : String) :
    TraceMap :=
  match m with
  | [] => [(file, [(line, [id])])]
  | (f, lt) :: rest =>
    if f = file then (f, updateLine lt line id) :: rest
    else (f, lt) :: insertCoveredReq rest file line id

/-- `drain_covered_traces` (coverage.rs lines 165-185): one `CoveredFile`
per file key, one `CoveredFileTrace` per line key, map iteration modelled
as insertion order; the caller replaces the drained map with the empty
map. -/
def drain_covered_traces (m : TraceMap) : List CoveredFile :=
  m.map (fun ft =>
    { filepath := ft.1,
      covered_traces := ft.2.map (fun lr => { req_ids := lr.2, line := lr.1 }),
      covered_lines := [] })

/-! ## coverage_from_defmt_frames (coverage.rs lines 39-163) -/

/-- The `CoverageError` variants reachable from
`coverage_from_defmt_frames`; the payload carries the offending datum
instead of the formatted message. -/
inductive CoverageError where
  | noTests
  | badDate (timestamp : Int)
  | matchErr (data : String)
deriving DecidableEq

/-- Outcome of a Rust call that can also panic (`expect` on the u32
parse, coverage.rs line 88). -/
inductive CovFail where
  | err (e : CoverageError)
  | panicked (msg : String)
deriving DecidableEq

/-- The loop state of `coverage_from_defmt_frames`: tests pushed so far,
the declared-total field, the open test, and the coverage accumulator. -/
structure CovState where
  tests : List Test
  nr_of_tests : Nat
  current_test : Option Test
  covered_traces : TraceMap
deriving DecidableEq

/-- The initial loop state (coverage.rs lines 64-73). -/
def initCovState : CovState :=
  { tests := [], nr_of_tests := 0, current_test := none, covered_traces := [] }

/-- `if let Some(mut test) = current_test.take() { ... }` (coverage.rs
lines 77-81 and 151-155): finalize the open test as Passed, flush the
accumulator into its covered files, push it. -/
def finalizeOpen (st : CovState) : CovState :=
  match st.current_test with
  | some t =>
    { st with
      tests := st.tests ++
        [{ t with state := TestState.passed,
                  covered_files := drain_covered_traces st.covered_traces }],
      current_test := none,
      covered_traces := [] }
  | none => st

/-- Fully qualified test name: crate, `::`-joined modules, function name
(coverage.rs lines 117-127). -/
def buildTestName (mp : ModulePath) (fn : String) : String :=
  let mod_path_str := mp.crate_name ++
    (if mp.modules.isEmpty then "" else "::" ++ String.intercalate "::" mp.modules)
  mod_path_str ++ "::" ++ fn

/-- The body of the frame loop of `coverage_from_defmt_frames`
(coverage.rs lines 75-157) for one frame.  `extractCov` is the external
`mantra_rust_macros::extract::extract_first_coverage`, passed as a
parameter because its source is an external dependency of the repository.
The two `debug_assert` statements in the `ignoring` arm are no-ops in a
release build and are not modelled. -/
def processFrame (extractCov : String → Option CoveredReq) (st : CovState)
    (frame : DefmtFrame) : Except CovFail CovState :=
  match testFnMatch frame.data with
  | some cap =>
    let st := finalizeOpen st
    match parseU32 cap.nr_tests with
    | none => Except.error (CovFail.panicked "Number of tests must be convertible to u32.")
    | some nr_tests =>
      let st := { st with nr_of_tests := nr_tests }
      match frame.location.file with
      | none => Except.error (CovFail.err (CoverageError.matchErr frame.data))
      | some file =>
        match frame.location.line with
        | none => Except.error (CovFail.err (CoverageError.matchErr frame.data))
        | some line_nr =>
          match frame.location.module_path with
          | none => Except.error (CovFail.err (CoverageError.matchErr frame.data))
          | some mod_path =>
            let test_fn_name := buildTestName mod_path cap.fn_name
            match cap.state with
            | FnState.running =>
              Except.ok { st with current_test := some (
                { name := test_fn_name, filepath := file, line := line_nr,
                  state := TestState.failed, covered_files := [] } : Test) }
            | FnState.ignoring =>
              Except.ok { st with tests := st.tests ++
                [{ name := test_fn_name, filepath := file, line := line_nr,
                   state := TestState.skipped none, covered_files := [] }] }
  | none =>
    match extractCov frame.data with
    | some covered_req =>
      Except.ok { st with covered_traces := (insertCoveredReq st.covered_traces
        covered_req.file covered_req.line covered_req.id) }
    | none =>
      if frame.data = "all tests passed!" then Except.ok (finalizeOpen st)
      else Except.ok st

/-- The frame loop of `coverage_from_defmt_frames`. -/
def coverageLoop (extractCov : String → Option CoveredReq) :
    List DefmtFrame → CovState → Except CovFail CovState
  | [], st => Except.ok st
  | f :: fs, st =>
    match processFrame extractCov st f with
    | Except.ok st' => coverageLoop extractCov fs st'
    | Except.error e => Except.error e

/-- `coverage_from_defmt_frames` (coverage.rs lines 39-163). -/
def coverage_from_defmt_frames (extractCov : String → Option CoveredReq)
    (run_name : String) (meta logs : Option String) (frames : List DefmtFrame) :
    Except CovFail CoverageSchema :=
  match frames.head? with
  | none => Except.error (CovFail.err CoverageError.noTests)
  | some first =>
    if tsValidB first.host_timestamp then
      match coverageLoop extractCov frames initCovState with
      | Except.ok st =>
        Except.ok
          { version := some SCHEMA_VERSION,
            test_runs := [{ name := run_name, date := first.host_timestamp,
                            meta := meta, logs := logs, tests := st.tests,
                            nr_of_tests := st.nr_of_tests }] }
      | Except.error e => Except.error e
    else Except.error (CovFail.err (CoverageError.badDate first.host_timestamp))

/-! ## read_defmt_frames (defmt.rs lines 27-168)

The TCP/decoder interaction is modelled by explicit traces: the inner
decode loop consumes the successive results of `stream_decoder.decode()`,
the outer loop consumes one record per iteration holding the value of the
cancellation flag at the iteration's check and the outcome of
`stream.read`. -/

/-- The `DefmtError` variants of defmt.rs (payloads reduced to the
message). -/
inductive DefmtError where
  | malformedFrame
  | noFramesReceived
  | tcpError (msg : String)
  | tcpConnect (msg : String)
  | readBinary (msg : String)
  | missingDefmt
deriving DecidableEq

deriving instance DecidableEq for Except

/-- One result of `stream_decoder.decode()` (defmt.rs lines 89-164). -/
inductive DecodeResult where
  | ok (frame : DefmtFrame)
  | unexpectedEof
  | malformed
deriving DecidableEq

/-- The inner decode loop (defmt.rs lines 88-166): push decoded frames,
break on `UnexpectedEof`, and on `Malformed` either skip (recoverable
encoding) or abort with `MalformedFrame`.  An exhausted trace is returned
as-is (a real decoder always eventually reports `UnexpectedEof`). -/
def decodeLoop (canRecover : Bool) (acc : List DefmtFrame) :
    List DecodeResult → Except DefmtError (List DefmtFrame)
  | [] => Except.ok acc
  | DecodeResult.ok f :: rest => decodeLoop canRecover (acc ++ [f]) rest
  | DecodeResult.unexpectedEof :: _ => Except.ok acc
  | DecodeResult.malformed :: rest =>
    if canRecover then decodeLoop canRecover acc rest
    else Except.error DefmtError.malformedFrame

/-- Outcome of one `stream.read` call in the outer loop (defmt.rs lines
63-83).  `data` carries the decode results the newly received bytes
produce. -/
inductive ReadOutcome where
  | data (decoded : List DecodeResult)
  | empty
  | errTimedOut
  | errAborted
  | errReset
  | errOther (msg : String)
deriving DecidableEq

/-- One outer-loop iteration: the cancellation flag observed at the
iteration's check and the read outcome. -/
structure ReadStep where
  end_signal : Bool
  result : ReadOutcome
deriving DecidableEq

/-- Result of running the outer loop on a finite trace: `done` when the
loop returned, `pending` when the trace was exhausted mid-loop. -/
inductive ReadLoopOutcome where
  | done (r : Except DefmtError (List DefmtFrame))
  | pending (frames : List DefmtFrame)
deriving DecidableEq

/-- The outer read loop of `read_defmt_frames` (defmt.rs lines 57-167):
return captured frames on an observed cancellation signal; retry on a
zero-length read and on `TimedOut`; treat `ConnectionAborted` and
`ConnectionReset` as a normal end; any other read error is a fatal
`TcpError`; received data runs the inner decode loop. -/
def read_defmt_loop (canRecover : Bool) (frames : List DefmtFrame) :
    List ReadStep → ReadLoopOutcome
  | [] => ReadLoopOutcome.pending frames
  | step :: rest =>
    if step.end_signal then ReadLoopOutcome.done (Except.ok frames)
    else
      match step.result with
      | ReadOutcome.data decoded =>
        match decodeLoop canRecover frames decoded with
        | Except.ok frames' => read_defmt_loop canRecover frames' rest
        | Except.error e => ReadLoopOutcome.done (Except.error e)
      | ReadOutcome.empty => read_defmt_loop canRecover frames rest
      | ReadOutcome.errTimedOut => read_defmt_loop canRecover frames rest
      | ReadOutcome.errAborted => ReadLoopOutcome.done (Except.ok frames)
      | ReadOutcome.errReset => ReadLoopOutcome.done (Except.ok frames)
      | ReadOutcome.errOther msg =>
        ReadLoopOutcome.done (Except.error (DefmtError.tcpError msg))

/-- A step on which the outer loop returns `Ok` with the frames captured
so far: the cancellation signal was observed at the iteration check, or
the read failed with `ConnectionAborted`/`ConnectionReset`. -/
def stepStops (s : ReadStep) : Bool :=
  s.end_signal ||
    (match s.result with
     | ReadOutcome.errAborted => true
     | ReadOutcome.errReset => true
     | _ => false)

/-- A step on which the outer loop aborts with an error: an unclassified
read error, or received data whose decode hits an unrecoverable malformed
frame. -/
def stepFatal (canRecover : Bool) (s : ReadStep) : Bool :=
  !s.end_signal &&
    (match s.result with
     | ReadOutcome.errOther _ => true
     | ReadOutcome.data decoded => !(decodeLoop canRecover [] decoded).isOk
     | _ => false)

/-! ## run_gdb_sequence (lib.rs lines 390-502)

Two supervised loops modelled over traces: the readiness scan over the
spawned process's stderr (lines 415-446) and the wait-for-exit poll loop
(lines 458-487).  The stages are wired in source order: a readiness
timeout returns before the defmt decode thread is spawned (line 453). -/

/-- The `RunnerError` variants reachable from `run_gdb_sequence`
(payloads reduced to the message). -/
inductive RunnerError where
  | rttTimeout
  | gdb (msg : String)
  | defmtErr (msg : String)
deriving DecidableEq

/-- The readiness marker substring `b"for rtt connection"` (lib.rs line
419). -/
def rttStartMarker : List Char := "for rtt connection".toList

/-- The marker check after appending a chunk of `n` bytes (lib.rs lines
429-434): for some `i < n`, the content truncated by `i` bytes ends with
the marker. -/
def markerHit (content : List Char) (n : Nat) : Bool :=
  (List.range n).any (fun i => rttStartMarker.isSuffixOf (content.take (content.length - i)))

/-- One observed event of the readiness scan: a nonempty chunk read from
the process's stderr, a zero-length read together with the elapsed
milliseconds at the timeout check, or a read error (which ends the
`while let Ok(n)` loop). -/
inductive OcdReadEvent where
  | chunk (bytes : List Char)
  | empty (elapsed_millis : Nat)
  | readErr
deriving DecidableEq

/-- Result of the readiness scan loop. -/
inductive ScanOutcome where
  | ready (content : List Char)
  | timeoutKilled
  | loopExit (content : List Char)
  | pending (content : List Char)
deriving DecidableEq

/-- The readiness scan (lib.rs lines 423-445): append each chunk and
break out on a marker hit; on a zero-length read past 12000 elapsed
milliseconds, kill the process and return `RttTimeout`; a read error ends
the loop (the sequence then proceeds without having seen the marker). -/
def readiness_scan (content : List Char) : List OcdReadEvent → ScanOutcome
  | [] => ScanOutcome.pending content
  | OcdReadEvent.chunk bs :: rest =>
    let content' := content ++ bs
    if markerHit content' bs.length then ScanOutcome.ready content'
    else readiness_scan content' rest
  | OcdReadEvent.empty elapsed :: rest =>
    if 12000 < elapsed then ScanOutcome.timeoutKilled
    else readiness_scan content rest
  | OcdReadEvent.readErr :: _ => ScanOutcome.loopExit content

/-- The scan makes it through the given events without stopping, ending
with the accumulated content (used to characterize when the timeout path
is reachable). -/
def scanGoes (content : List Char) : List OcdReadEvent → Option (List Char)
  | [] => some content
  | OcdReadEvent.chunk bs :: rest =>
    let content' := content ++ bs
    if markerHit content' bs.length then none else scanGoes content' rest
  | OcdReadEvent.empty elapsed :: rest =>
    if 12000 < elapsed then none else scanGoes content rest
  | OcdReadEvent.readErr :: _ => none

/-- One result of `gdb.try_wait()` (lib.rs lines 462-485); the exit
status is modelled as its integer code. -/
inductive PollEvent where
  | exited (status : Int)
  | stillRunning
  | pollErr (msg : String)
deriving DecidableEq

/-- Result of the wait-for-exit loop. -/
inductive WaitOutcome where
  | finished (gdb_result : Except RunnerError Int)
  | timeoutKilled
  | pending
deriving DecidableEq

/-- The wait-for-exit poll loop (lib.rs lines 461-487): each entry is a
`try_wait` result paired with the elapsed milliseconds at that iteration.
On exit the status becomes the (successful) `gdb_result`; a poll error
becomes an error `gdb_result` (still breaking the loop); while still
running past 12000 elapsed milliseconds the process is killed and the
whole sequence returns the timeout error. -/
def wait_for_gdb_exit : List (PollEvent × Nat) → WaitOutcome
  | [] => WaitOutcome.pending
  | (PollEvent.exited st, _) :: _ => WaitOutcome.finished (Except.ok st)
  | (PollEvent.pollErr msg, _) :: _ =>
    WaitOutcome.finished (Except.error (RunnerError.gdb msg))
  | (PollEvent.stillRunning, elapsed) :: rest =>
    if 12000 < elapsed then WaitOutcome.timeoutKilled
    else wait_for_gdb_exit rest

/-- Staged outcome of `run_gdb_sequence`: a readiness timeout happens
before the decode thread is spawned; an execution timeout happens after;
`completed` carries the `gdb_result` value that is returned inside the
overall `Ok` (lib.rs line 501). -/
inductive GdbSeqOutcome where
  | stillScanning
  | readinessTimeout
  | stillWaiting
  | executionTimeout
  | completed (gdb_result : Except RunnerError Int)
deriving DecidableEq

/-- The stage wiring of `run_gdb_sequence` (lib.rs lines 415-501):
readiness scan first; only when it did not time out is the defmt decode
thread spawned and the wait loop entered. -/
def run_gdb_sequence_model (scanEvents : List OcdReadEvent)
    (polls : List (PollEvent × Nat)) : GdbSeqOutcome :=
  match readiness_scan [] scanEvents with
  | ScanOutcome.timeoutKilled => GdbSeqOutcome.readinessTimeout
  | ScanOutcome.pending _ => GdbSeqOutcome.stillScanning
  | ScanOutcome.ready _ =>
    match wait_for_gdb_exit polls with
    | WaitOutcome.pending => GdbSeqOutcome.stillWaiting
    | WaitOutcome.timeoutKilled => GdbSeqOutcome.executionTimeout
    | WaitOutcome.finished r => GdbSeqOutcome.completed r
  | ScanOutcome.loopExit _ =>
    match wait_for_gdb_exit polls with
    | WaitOutcome.pending => GdbSeqOutcome.stillWaiting
    | WaitOutcome.timeoutKilled => GdbSeqOutcome.executionTimeout
    | WaitOutcome.finished r => GdbSeqOutcome.completed r

/-- Was the debug-transport decode task started in this outcome? -/
def decodeTaskStarted : GdbSeqOutcome → Bool
  | GdbSeqOutcome.stillScanning => false
  | GdbSeqOutcome.readinessTimeout => false
  | GdbSeqOutcome.stillWaiting => true
  | GdbSeqOutcome.executionTimeout => true
  | GdbSeqOutcome.completed _ => true

/-- Was the spawned gdb process killed in this outcome? -/
def processKilled : GdbSeqOutcome → Bool
  | GdbSeqOutcome.readinessTimeout => true
  | GdbSeqOutcome.executionTimeout => true
  | _ => false

/-- The error value `run_gdb_sequence` returns in this outcome (`none`
when it returns `Ok` or the trace is incomplete).  Both timeout paths
return `RunnerError::RttTimeout` — the code reuses the same variant for
the readiness and the execution timeout. -/
def seqError : GdbSeqOutcome → Option RunnerError
  | GdbSeqOutcome.readinessTimeout => some RunnerError.rttTimeout
  | GdbSeqOutcome.executionTimeout => some RunnerError.rttTimeout
  | _ => none

/-! ## The coverage-write stage of the run command (lib.rs lines 248-269)

After the gdb sequence completes, `run_cmd` calls
`coverage_from_defmt_frames` and, only when it returns `Ok`, serializes
the complete schema into `coverage.json` with a single write; an
extraction error propagates and nothing is written. -/

/-- The coverage stage of the run command: `some schema` means
`coverage.json` is written holding exactly `schema`; `none` means the
error propagated and no coverage file was emitted. -/
def run_coverage_stage (extractCov : String → Option CoveredReq)
    (run_name : String) (meta logs : Option String)
    (frames : List DefmtFrame) : Option CoverageSchema :=
  match coverage_from_defmt_frames extractCov run_name meta logs frames with
  | Except.ok cov => some cov
  | Except.error _ => none

/-! ## Sample coverage extractor

A concrete stand-in for the external
`mantra_rust_macros::extract::extract_first_coverage`, used only to
instantiate witnesses; every theorem is parametric in the extractor. -/

/-- A small concrete extractor instance for witnesses. -/
def sampleExtract (s : String) : Option CoveredReq :=
  if s = "covers R1 at a.rs line 10" then some ⟨"R1", "a.rs", 10⟩
  else if s = "covers R2 at a.rs line 10" then some ⟨"R2", "a.rs", 10⟩
  else if s = "covers R1 at b.rs line 3" then some ⟨"R1", "b.rs", 3⟩
  else none

/-! ## General lemmas about the coverage loop -/

/-- The effect of one frame on the accumulator alone: a coverage-marker
frame inserts its triple, any other frame leaves the accumulator
unchanged. -/
def covStep (extractCov : String → Option CoveredReq) (m : TraceMap)
    (f : DefmtFrame) : TraceMap :=
  match extractCov f.data with
  | some r => insertCoveredReq m r.file r.line r.id
  | none => m

/-- Accumulator effect of a whole segment of frames. -/
def covFold (extractCov : String → Option CoveredReq) (m : TraceMap)
    (seg : List DefmtFrame) : TraceMap :=
  seg.foldl (covStep extractCov) m

theorem coverageLoop_append (ex : String → Option CoveredReq)
    (xs ys : List DefmtFrame) (st : CovState) :
    coverageLoop ex (xs ++ ys) st =
      match coverageLoop ex xs st with
      | Except.ok st' => coverageLoop ex ys st'
      | Except.error e => Except.error e := by
  induction xs generalizing st with
  | nil => simp [coverageLoop]
  | cons f fs ih =>
    simp only [List.cons_append, coverageLoop]
    cases processFrame ex st f with
    | ok st' => exact ih st'
    | error e => rfl

theorem processFrame_benign (ex : String → Option CoveredReq) (st : CovState)
    (f : DefmtFrame) (hm : testFnMatch f.data = none)
    (ht : f.data ≠ "all tests passed!") :
    processFrame ex st f =
      Except.ok { st with covered_traces := covStep ex st.covered_traces f } := by
  unfold processFrame covStep
  rw [hm]
  cases hx : ex f.data with
  | some r => rfl
  | none => simp [ht]

theorem coverageLoop_benign (ex : String → Option CoveredReq)
    (seg : List DefmtFrame) (st : CovState)
    (h : ∀ f ∈ seg, testFnMatch f.data = none ∧ f.data ≠ "all tests passed!") :
    coverageLoop ex seg st =
      Except.ok { st with covered_traces := covFold ex st.covered_traces seg } := by
  induction seg generalizing st with
  | nil => simp [coverageLoop, covFold]
  | cons f fs ih =>
    obtain ⟨hm, ht⟩ := h f (List.mem_cons_self f fs)
    simp only [coverageLoop]
    rw [processFrame_benign ex st f hm ht]
    dsimp only
    rw [ih _ (fun g hg => h g (List.mem_cons_of_mem f hg))]
    simp [covFold]

theorem covFold_extract_none (ex : String → Option CoveredReq) (m : TraceMap)
    (seg : List DefmtFrame) (h : ∀ f ∈ seg, ex f.data = none) :
    covFold ex m seg = m := by
  induction seg generalizing m with
  | nil => rfl
  | cons f fs ih =>
    have hf : ex f.data = none := h f (List.mem_cons_self f fs)
    simp only [covFold, List.foldl_cons]
    rw [show covStep ex m f = m by unfold covStep; rw [hf]]
    exact ih m (fun g hg => h g (List.mem_cons_of_mem f hg))

theorem processFrame_running (ex : String → Option CoveredReq) (st : CovState)
    (f : DefmtFrame) (ds : List Char) (fn : String) (n : Nat) (file : String)
    (line : Nat) (mp : ModulePath)
    (hm : testFnMatch f.data = some ⟨ds, FnState.running, fn⟩)
    (hp : parseU32 ds = some n)
    (hf : f.location.file = some file) (hl : f.location.line = some line)
    (hmp : f.location.module_path = some mp) :
    processFrame ex st f =
      Except.ok ⟨(finalizeOpen st).tests, n,
        some ⟨buildTestName mp fn, file, line, TestState.failed, []⟩,
        (finalizeOpen st).covered_traces⟩ := by
  simp only [processFrame, hm, hp, hf, hl, hmp]

theorem processFrame_ignoring (ex : String → Option CoveredReq) (st : CovState)
    (f : DefmtFrame) (ds : List Char) (fn : String) (n : Nat) (file : String)
    (line : Nat) (mp : ModulePath)
    (hm : testFnMatch f.data = some ⟨ds, FnState.ignoring, fn⟩)
    (hp : parseU32 ds = some n)
    (hf : f.location.file = some file) (hl : f.location.line = some line)
    (hmp : f.location.module_path = some mp) :
    processFrame ex st f =
      Except.ok ⟨(finalizeOpen st).tests ++
          [⟨buildTestName mp fn, file, line, TestState.skipped none, []⟩], n,
        (finalizeOpen st).current_test, (finalizeOpen st).covered_traces⟩ := by
  simp only [processFrame, hm, hp, hf, hl, hmp]

theorem processFrame_terminal (ex : String → Option CoveredReq) (st : CovState)
    (f : DefmtFrame) (ht : f.data = "all tests passed!")
    (hex : ex "all tests passed!" = none) :
    processFrame ex st f = Except.ok (finalizeOpen st) := by
  have hm : testFnMatch f.data = none := by rw [ht]; decide
  unfold processFrame
  rw [hm, ht, hex]
  simp

theorem head?_append_cons {α : Type} (pre : List α) (x : α) (rest : List α) :
    (pre ++ x :: rest).head? = some (pre.headD x) := by
  cases pre <;> simp

theorem coverageLoop_ok_append (ex : String → Option CoveredReq)
    {xs ys : List DefmtFrame} {st st1 : CovState}
    {r : Except CovFail CovState}
    (h1 : coverageLoop ex xs st = Except.ok st1)
    (h2 : coverageLoop ex ys st1 = r) :
    coverageLoop ex (xs ++ ys) st = r := by
  rw [coverageLoop_append, h1]
  exact h2

theorem coverageLoop_cons_ok (ex : String → Option CoveredReq)
    {f : DefmtFrame} {fs : List DefmtFrame} {st st1 : CovState}
    {r : Except CovFail CovState}
    (h1 : processFrame ex st f = Except.ok st1)
    (h2 : coverageLoop ex fs st1 = r) :
    coverageLoop ex (f :: fs) st = r := by
  simp only [coverageLoop, h1]
  exact h2

theorem covFold_append (ex : String → Option CoveredReq) (m : TraceMap)
    (xs ys : List DefmtFrame) :
    covFold ex m (xs ++ ys) = covFold ex (covFold ex m xs) ys := by
  unfold covFold
  rw [List.foldl_append]

/-- Claim C1 (amended): for a frame sequence of the shape
`pre ++ [running A] ++ mid ++ [running B] ++ post ++ [terminal]` where
`pre`, `mid` and `post` hold no test-marker frame and no terminal frame,
the extractor yields exactly two tests in order: A is already finalized
Passed once B's marker is processed, and B is finalized Passed at the
terminal frame with the coverage markers between its marker and the
terminal folded into B — but A's covered files hold the fold of every
coverage marker before B's marker, including those of `pre`, observed
before A's marker while no test was open (the code accumulates such
markers and drains them into the next finalized test). -/
theorem C1_amended_two_running_then_terminal
    (ex : String → Option CoveredReq) (run_name : String)
    (meta logs : Option String)
    (pre mid post : List DefmtFrame) (mA mB term : DefmtFrame)
    (dA dB : List Char) (fnA fnB : String) (NA NB : Nat)
    (fileA fileB : String) (lineA lineB : Nat) (mpA mpB : ModulePath)
    (hpre : ∀ f ∈ pre, testFnMatch f.data = none ∧ f.data ≠ "all tests passed!")
    (hmid : ∀ f ∈ mid, testFnMatch f.data = none ∧ f.data ≠ "all tests passed!")
    (hpost : ∀ f ∈ post, testFnMatch f.data = none ∧ f.data ≠ "all tests passed!")
    (hA : testFnMatch mA.data = some ⟨dA, FnState.running, fnA⟩)
    (hAp : parseU32 dA = some NA)
    (hAf : mA.location.file = some fileA) (hAl : mA.location.line = some lineA)
    (hAmp : mA.location.module_path = some mpA)
    (hB : testFnMatch mB.data = some ⟨dB, FnState.running, fnB⟩)
    (hBp : parseU32 dB = some NB)
    (hBf : mB.location.file = some fileB) (hBl : mB.location.line = some lineB)
    (hBmp : mB.location.module_path = some mpB)
    (hterm : term.data = "all tests passed!")
    (hex : ex "all tests passed!" = none)
    (hts : tsValidB (pre.headD mA).host_timestamp = true) :
    coverage_from_defmt_frames ex run_name meta logs
        (pre ++ (mA :: (mid ++ (mB :: (post ++ [term]))))) =
      Except.ok ⟨some SCHEMA_VERSION,
        [⟨run_name, (pre.headD mA).host_timestamp, meta, logs,
          [⟨buildTestName mpA fnA, fileA, lineA, TestState.passed,
             drain_covered_traces (covFold ex [] (pre ++ mid))⟩,
           ⟨buildTestName mpB fnB, fileB, lineB, TestState.passed,
             drain_covered_traces (covFold ex [] post)⟩],
          NB⟩]⟩ ∧
    coverageLoop ex (pre ++ (mA :: (mid ++ [mB]))) initCovState =
      Except.ok ⟨[⟨buildTestName mpA fnA, fileA, lineA, TestState.passed,
          drain_covered_traces (covFold ex [] (pre ++ mid))⟩], NB,
        some ⟨buildTestName mpB fnB, fileB, lineB, TestState.failed, []⟩, []⟩ := by
  rw [covFold_append ex [] pre mid]
  have h_pre : coverageLoop ex pre initCovState =
      Except.ok ⟨[], 0, none, covFold ex [] pre⟩ :=
    coverageLoop_benign ex pre initCovState hpre
  have h_mA : processFrame ex ⟨[], 0, none, covFold ex [] pre⟩ mA =
      Except.ok ⟨[], NA,
        some ⟨buildTestName mpA fnA, fileA, lineA, TestState.failed, []⟩,
        covFold ex [] pre⟩ :=
    processFrame_running ex _ mA dA fnA NA fileA lineA mpA
      hA hAp hAf hAl hAmp
  have h_mid : coverageLoop ex mid
      ⟨[], NA, some ⟨buildTestName mpA fnA, fileA, lineA, TestState.failed, []⟩,
        covFold ex [] pre⟩ =
      Except.ok ⟨[], NA,
        some ⟨buildTestName mpA fnA, fileA, lineA, TestState.failed, []⟩,
        covFold ex (covFold ex [] pre) mid⟩ :=
    coverageLoop_benign ex mid _ hmid
  have h_mB : processFrame ex
      ⟨[], NA, some ⟨buildTestName mpA fnA, fileA, lineA, TestState.failed, []⟩,
        covFold ex (covFold ex [] pre) mid⟩ mB =
      Except.ok ⟨[⟨buildTestName mpA fnA, fileA, lineA, TestState.passed,
          drain_covered_traces (covFold ex (covFold ex [] pre) mid)⟩], NB,
        some ⟨buildTestName mpB fnB, fileB, lineB, TestState.failed, []⟩, []⟩ :=
    processFrame_running ex _ mB dB fnB NB fileB lineB mpB hB hBp hBf hBl hBmp
  have h_post : coverageLoop ex post
      ⟨[⟨buildTestName mpA fnA, fileA, lineA, TestState.passed,
          drain_covered_traces (covFold ex (covFold ex [] pre) mid)⟩], NB,
        some ⟨buildTestName mpB fnB, fileB, lineB, TestState.failed, []⟩, []⟩ =
      Except.ok ⟨[⟨buildTestName mpA fnA, fileA, lineA, TestState.passed,
          drain_covered_traces (covFold ex (covFold ex [] pre) mid)⟩], NB,
        some ⟨buildTestName mpB fnB, fileB, lineB, TestState.failed, []⟩,
        covFold ex [] post⟩ :=
    coverageLoop_benign ex post _ hpost
  have h_term : processFrame ex
      ⟨[⟨buildTestName mpA fnA, fileA, lineA, TestState.passed,
          drain_covered_traces (covFold ex (covFold ex [] pre) mid)⟩], NB,
        some ⟨buildTestName mpB fnB, fileB, lineB, TestState.failed, []⟩,
        covFold ex [] post⟩ term =
      Except.ok ⟨[⟨buildTestName mpA fnA, fileA, lineA, TestState.passed,
          drain_covered_traces (covFold ex (covFold ex [] pre) mid)⟩,
        ⟨buildTestName mpB fnB, fileB, lineB, TestState.passed,
          drain_covered_traces (covFold ex [] post)⟩], NB, none, []⟩ :=
    processFrame_terminal ex _ term hterm hex
  have h_loop : coverageLoop ex (pre ++ (mA :: (mid ++ (mB :: (post ++ [term])))))
      initCovState =
      Except.ok ⟨[⟨buildTestName mpA fnA, fileA, lineA, TestState.passed,
          drain_covered_traces (covFold ex (covFold ex [] pre) mid)⟩,
        ⟨buildTestName mpB fnB, fileB, lineB, TestState.passed,
          drain_covered_traces (covFold ex [] post)⟩], NB, none, []⟩ := by
    refine coverageLoop_ok_append ex h_pre ?_
    refine coverageLoop_cons_ok ex h_mA ?_
    refine coverageLoop_ok_append ex h_mid ?_
    refine coverageLoop_cons_ok ex h_mB ?_
    refine coverageLoop_ok_append ex h_post ?_
    exact coverageLoop_cons_ok ex h_term rfl
  constructor
  · simp only [coverage_from_defmt_frames, head?_append_cons, hts, if_true, h_loop]
  · refine coverageLoop_ok_append ex h_pre ?_
    refine coverageLoop_cons_ok ex h_mA ?_
    refine coverageLoop_ok_append ex h_mid ?_
    exact coverageLoop_cons_ok ex h_mB rfl

theorem parseU32_eq {ds : List Char} {n : Nat} (h : parseU32 ds = some n) :
    n = digitsToNat ds := by
  unfold parseU32 at h
  split at h
  · injection h with h'
    exact h'.symm
  · cases h

theorem finalizeOpen_nr (st : CovState) :
    (finalizeOpen st).nr_of_tests = st.nr_of_tests := by
  unfold finalizeOpen
  cases st.current_test <;> rfl

/-- Exhaustive description of the successful outcomes of `processFrame`. -/
theorem processFrame_ok_cases (ex : String → Option CoveredReq) (st : CovState)
    (f : DefmtFrame) (st₂ : CovState)
    (h : processFrame ex st f = Except.ok st₂) :
    (∃ cap n file line mp, testFnMatch f.data = some cap ∧
      parseU32 cap.nr_tests = some n ∧
      f.location.file = some file ∧ f.location.line = some line ∧
      f.location.module_path = some mp ∧
      ((cap.state = FnState.running ∧
        st₂ = ⟨(finalizeOpen st).tests, n,
          some ⟨buildTestName mp cap.fn_name, file, line, TestState.failed, []⟩,
          (finalizeOpen st).covered_traces⟩) ∨
       (cap.state = FnState.ignoring ∧
        st₂ = ⟨(finalizeOpen st).tests ++
            [⟨buildTestName mp cap.fn_name, file, line, TestState.skipped none, []⟩],
          n, (finalizeOpen st).current_test, (finalizeOpen st).covered_traces⟩))) ∨
    (testFnMatch f.data = none ∧ ∃ r, ex f.data = some r ∧
      st₂ = ⟨st.tests, st.nr_of_tests, st.current_test,
        insertCoveredReq st.covered_traces r.file r.line r.id⟩) ∨
    (testFnMatch f.data = none ∧ ex f.data = none ∧
      f.data = "all tests passed!" ∧ st₂ = finalizeOpen st) ∨
    (testFnMatch f.data = none ∧ ex f.data = none ∧
      f.data ≠ "all tests passed!" ∧ st₂ = st) := by
  unfold processFrame at h
  cases hm : testFnMatch f.data with
  | some cap =>
    simp only [hm] at h
    cases hp : parseU32 cap.nr_tests with
    | none =>
      simp only [hp] at h
      cases h
    | some n =>
      simp only [hp] at h
      cases hf : f.location.file with
      | none =>
        simp only [hf] at h
        cases h
      | some file =>
        simp only [hf] at h
        cases hl : f.location.line with
        | none =>
          simp only [hl] at h
          cases h
        | some line =>
          simp only [hl] at h
          cases hmp : f.location.module_path with
          | none =>
            simp only [hmp] at h
            cases h
          | some mp =>
            simp only [hmp] at h
            cases hcs : cap.state with
            | running =>
              simp only [hcs] at h
              injection h with h'
              exact Or.inl ⟨cap, n, file, line, mp, rfl, hp, rfl, rfl, rfl,
                Or.inl ⟨hcs, h'.symm⟩⟩
            | ignoring =>
              simp only [hcs] at h
              injection h with h'
              exact Or.inl ⟨cap, n, file, line, mp, rfl, hp, rfl, rfl, rfl,
                Or.inr ⟨hcs, h'.symm⟩⟩
  | none =>
    simp only [hm] at h
    cases hx : ex f.data with
    | some r =>
      simp only [hx] at h
      injection h with h'
      exact Or.inr (Or.inl ⟨rfl, r, rfl, h'.symm⟩)
    | none =>
      simp only [hx] at h
      by_cases hd : f.data = "all tests passed!"
      · rw [if_pos hd] at h
        injection h with h'
        exact Or.inr (Or.inr (Or.inl ⟨rfl, rfl, hd, h'.symm⟩))
      · rw [if_neg hd] at h
        injection h with h'
        exact Or.inr (Or.inr (Or.inr ⟨rfl, rfl, hd, h'.symm⟩))

/-- After a successfully processed frame, the declared-total field either
is unchanged (non-marker frame) or holds the marker's total. -/
theorem processFrame_nr (ex : String → Option CoveredReq) (st : CovState)
    (f : DefmtFrame) (st₂ : CovState)
    (h : processFrame ex st f = Except.ok st₂) :
    (testFnMatch f.data = none ∧ st₂.nr_of_tests = st.nr_of_tests) ∨
    (∃ cap, testFnMatch f.data = some cap ∧
      st₂.nr_of_tests = digitsToNat cap.nr_tests) := by
  rcases processFrame_ok_cases ex st f st₂ h with
    ⟨cap, n, file, line, mp, hm, hp, _, _, _, hc | hc⟩ | ⟨hm, r, _, hst⟩ |
    ⟨hm, _, _, hst⟩ | ⟨hm, _, _, hst⟩
  · exact Or.inr ⟨cap, hm, by rw [hc.2]; exact parseU32_eq hp⟩
  · exact Or.inr ⟨cap, hm, by rw [hc.2]; exact parseU32_eq hp⟩
  · exact Or.inl ⟨hm, by rw [hst]⟩
  · exact Or.inl ⟨hm, by rw [hst, finalizeOpen_nr]⟩
  · exact Or.inl ⟨hm, by rw [hst]⟩

/-- The total declared by the last test-marker frame of the sequence,
starting from a previously seen total. -/
def lastDeclaredTotal (frames : List DefmtFrame) (acc : Option (List Char)) :
    Option (List Char) :=
  match frames with
  | [] => acc
  | f :: fs =>
    match testFnMatch f.data with
    | some cap => lastDeclaredTotal fs (some cap.nr_tests)
    | none => lastDeclaredTotal fs acc

theorem lastDeclaredTotal_acc (frames : List DefmtFrame) (ds : List Char) :
    lastDeclaredTotal frames (some ds) =
      match lastDeclaredTotal frames none with
      | some ds' => some ds'
      | none => some ds := by
  induction frames generalizing ds with
  | nil => rfl
  | cons f fs ih =>
    cases hm : testFnMatch f.data with
    | some cap =>
      simp only [lastDeclaredTotal, hm]
      rw [ih]
      cases lastDeclaredTotal fs none with
      | some ds' => rfl
      | none => rfl
    | none => simp only [lastDeclaredTotal, hm, ih]

/-- Along a successful run of the loop, the declared-total field ends at
the last marker's total (or keeps its initial value when no marker
occurs). -/
theorem coverageLoop_nr (ex : String → Option CoveredReq)
    (frames : List DefmtFrame) (st st' : CovState)
    (h : coverageLoop ex frames st = Except.ok st') :
    st'.nr_of_tests =
      match lastDeclaredTotal frames none with
      | some ds => digitsToNat ds
      | none => st.nr_of_tests := by
  induction frames generalizing st with
  | nil =>
    simp only [coverageLoop] at h
    injection h with h'
    rw [h']
    rfl
  | cons f fs ih =>
    simp only [coverageLoop] at h
    cases hpf : processFrame ex st f with
    | error e => rw [hpf] at h; cases h
    | ok st₁ =>
      rw [hpf] at h
      rcases processFrame_nr ex st f st₁ hpf with ⟨hm, hnr⟩ | ⟨cap, hm, hnr⟩
      · simp only [lastDeclaredTotal, hm]
        rw [ih st₁ h, hnr]
      · simp only [lastDeclaredTotal, hm]
        rw [ih st₁ h, lastDeclaredTotal_acc]
        cases lastDeclaredTotal fs none with
        | some ds' => rfl
        | none => simp [hnr]

/-- Inversion of a successful extraction run: the input had a first
frame with a valid timestamp, the loop succeeded, and the schema is the
single test run assembled from the final loop state. -/
theorem coverage_ok_inv (ex : String → Option CoveredReq) (rn : String)
    (meta logs : Option String) (frames : List DefmtFrame) (s : CoverageSchema)
    (h : coverage_from_defmt_frames ex rn meta logs frames = Except.ok s) :
    ∃ first st, frames.head? = some first ∧
      tsValidB first.host_timestamp = true ∧
      coverageLoop ex frames initCovState = Except.ok st ∧
      s = ⟨some SCHEMA_VERSION,
        [⟨rn, first.host_timestamp, meta, logs, st.tests, st.nr_of_tests⟩]⟩ := by
  unfold coverage_from_defmt_frames at h
  cases hh : frames.head? with
  | none => rw [hh] at h; cases h
  | some first =>
    rw [hh] at h
    dsimp only at h
    split at h
    · rename_i hts
      cases hloop : coverageLoop ex frames initCovState with
      | error e => rw [hloop] at h; cases h
      | ok st =>
        rw [hloop] at h
        injection h with h'
        exact ⟨first, st, rfl, hts, rfl, h'.symm⟩
    · cases h

/-! ## Witness fixtures: a tiny concrete frame set -/

/-- Fixture location used by witnesses. -/
def wLoc : JsonLocation := ⟨some "a.rs", some 1, some ⟨"c", [], "f"⟩⟩

/-- Fixture marker declaring a total of 2. -/
def wM12 : DefmtFrame := ⟨"(1/2) running `t1`...", 0, wLoc⟩

/-- Fixture marker declaring a total of 3. -/
def wM23 : DefmtFrame := ⟨"(2/3) running `t2`...", 0, wLoc⟩

/-- Fixture terminal frame. -/
def wTerm : DefmtFrame := ⟨"all tests passed!", 0, ⟨none, none, none⟩⟩

/-- Claim C2 (counterexample): the first marker declares a total of 2,
the second a total of 3, and the produced run carries 3 — `nr_of_tests`
is overwritten by every marker frame, so the result holds the last
marker's total, not the first's as the claim states. -/
theorem C2_counterexample :
    coverage_from_defmt_frames sampleExtract "run" none none [wM12, wM23] =
      Except.ok ⟨some SCHEMA_VERSION,
        [⟨"run", 0, none, none,
          [⟨"c::t1", "a.rs", 1, TestState.passed, []⟩], 3⟩]⟩ ∧
    (testFnMatch wM12.data).map (fun c => digitsToNat c.nr_tests) = some 2 ∧
    (testFnMatch wM23.data).map (fun c => digitsToNat c.nr_tests) = some 3 := by
  refine ⟨?_, ?_, ?_⟩ <;> rfl

/-- Claim C2 (amended): on every successful extraction the produced run's
`nr_of_tests` equals the parsed total of the LAST test-marker frame (and
0 when no marker frame occurs); the field is reassigned by every marker
frame rather than set once from the first. -/
theorem C2_amended_nr_from_last_marker (ex : String → Option CoveredReq)
    (rn : String) (meta logs : Option String) (frames : List DefmtFrame)
    (s : CoverageSchema)
    (h : coverage_from_defmt_frames ex rn meta logs frames = Except.ok s) :
    s.test_runs.map (fun r => r.nr_of_tests) =
      [match lastDeclaredTotal frames none with
       | some ds => digitsToNat ds
       | none => 0] := by
  rcases coverage_ok_inv ex rn meta logs frames s h with
    ⟨first, st, hh, hts, hloop, hs⟩
  subst hs
  simp only [List.map]
  rw [coverageLoop_nr ex frames initCovState st hloop]
  cases lastDeclaredTotal frames none <;> rfl

/-- Witness for the amended C2 theorem at the two-marker fixture. -/
theorem C2_amended_witness :
    (⟨some SCHEMA_VERSION,
      [⟨"run", 0, none, none,
        [⟨"c::t1", "a.rs", 1, TestState.passed, []⟩], 3⟩]⟩ :
      CoverageSchema).test_runs.map (fun r => r.nr_of_tests) =
      [match lastDeclaredTotal [wM12, wM23] none with
       | some ds => digitsToNat ds
       | none => 0] :=
  C2_amended_nr_from_last_marker sampleExtract "run" none none [wM12, wM23]
    ⟨some SCHEMA_VERSION,
      [⟨"run", 0, none, none,
        [⟨"c::t1", "a.rs", 1, TestState.passed, []⟩], 3⟩]⟩ (by decide)

/-- Tests already pushed stay Passed-or-Skipped after finalizing the open
test (the finalized test is pushed as Passed). -/
theorem finalizeOpen_good (st : CovState)
    (hg : ∀ t ∈ st.tests,
      t.state = TestState.passed ∨ t.state = TestState.skipped none) :
    ∀ t ∈ (finalizeOpen st).tests,
      t.state = TestState.passed ∨ t.state = TestState.skipped none := by
  unfold finalizeOpen
  cases st.current_test with
  | none => exact hg
  | some t0 =>
    intro t ht
    rcases List.mem_append.mp ht with ht' | ht'
    · exact hg t ht'
    · rw [List.mem_singleton.mp ht']
      exact Or.inl rfl

theorem processFrame_good (ex : String → Option CoveredReq) (st : CovState)
    (f : DefmtFrame) (st₂ : CovState)
    (h : processFrame ex st f = Except.ok st₂)
    (hg : ∀ t ∈ st.tests,
      t.state = TestState.passed ∨ t.state = TestState.skipped none) :
    ∀ t ∈ st₂.tests,
      t.state = TestState.passed ∨ t.state = TestState.skipped none := by
  rcases processFrame_ok_cases ex st f st₂ h with
    ⟨cap, n, file, line, mp, _, _, _, _, _, hc | hc⟩ | ⟨_, r, _, hst⟩ |
    ⟨_, _, _, hst⟩ | ⟨_, _, _, hst⟩
  · rw [hc.2]
    exact finalizeOpen_good st hg
  · rw [hc.2]
    intro t ht
    rcases List.mem_append.mp ht with ht' | ht'
    · exact finalizeOpen_good st hg t ht'
    · rw [List.mem_singleton.mp ht']
      exact Or.inr rfl
  · rw [hst]
    exact hg
  · rw [hst]
    exact finalizeOpen_good st hg
  · rw [hst]
    exact hg

theorem coverageLoop_good (ex : String → Option CoveredReq)
    (frames : List DefmtFrame) (st st' : CovState)
    (h : coverageLoop ex frames st = Except.ok st')
    (hg : ∀ t ∈ st.tests,
      t.state = TestState.passed ∨ t.state = TestState.skipped none) :
    ∀ t ∈ st'.tests,
      t.state = TestState.passed ∨ t.state = TestState.skipped none := by
  induction frames generalizing st with
  | nil =>
    simp only [coverageLoop] at h
    injection h with h'
    rw [← h']
    exact hg
  | cons f fs ih =>
    simp only [coverageLoop] at h
    cases hpf : processFrame ex st f with
    | error e => rw [hpf] at h; cases h
    | ok st₁ =>
      rw [hpf] at h
      exact ih st₁ h (processFrame_good ex st f st₁ hpf hg)

/-- Claim C10: a successful extraction never reports a `Failed` test —
every test in the produced run is `Passed` or `Skipped` (a test opened by
a `running` marker is provisionally `Failed` only while open, and is
pushed to the run only after being finalized `Passed`; a test still open
when the frames end is dropped together with its accumulated coverage). -/
theorem C10_no_failed_tests (ex : String → Option CoveredReq) (rn : String)
    (meta logs : Option String) (frames : List DefmtFrame)
    (s : CoverageSchema)
    (h : coverage_from_defmt_frames ex rn meta logs frames = Except.ok s) :
    ∀ run ∈ s.test_runs, ∀ t ∈ run.tests,
      t.state = TestState.passed ∨ t.state = TestState.skipped none := by
  rcases coverage_ok_inv ex rn meta logs frames s h with
    ⟨first, st, hh, hts, hloop, hs⟩
  subst hs
  intro run hrun
  rw [List.mem_singleton.mp hrun]
  intro t ht
  exact coverageLoop_good ex frames initCovState st hloop
    (fun t' ht' => absurd ht' (List.not_mem_nil t')) t ht

/-- Witness for C10 at a concrete run with one passed and one open
(dropped) test. -/
theorem C10_witness :
    (⟨"c::t1", "a.rs", 1, TestState.passed, []⟩ : Test).state =
        TestState.passed ∨
      (⟨"c::t1", "a.rs", 1, TestState.passed, []⟩ : Test).state =
        TestState.skipped none :=
  C10_no_failed_tests sampleExtract "run" none none [wM12, wM23]
    ⟨some SCHEMA_VERSION,
      [⟨"run", 0, none, none,
        [⟨"c::t1", "a.rs", 1, TestState.passed, []⟩], 3⟩]⟩ (by decide)
    ⟨"run", 0, none, none, [⟨"c::t1", "a.rs", 1, TestState.passed, []⟩], 3⟩
    (by decide)
    ⟨"c::t1", "a.rs", 1, TestState.passed, []⟩ (by decide)

/-- Fixture coverage-marker frame recognized by `sampleExtract`. -/
def wCov : DefmtFrame := ⟨"covers R1 at a.rs line 10", 0, ⟨none, none, none⟩⟩

/-- Claim C1 (counterexample): a coverage marker arriving BEFORE A's
`running` marker — with no coverage marker at all between A's and B's
markers — is nonetheless folded into A's covered files: the code
accumulates markers observed while no test is open (coverage.rs lines
141-149 insert unconditionally) and drains them into the next finalized
test, so A's covered files are not "exactly the coverage markers between
A's marker and B's marker" as the claim states (here that set is empty). -/
theorem C1_counterexample :
    coverage_from_defmt_frames sampleExtract "run" none none
        [wCov, wM12, wM23, wTerm] =
      Except.ok ⟨some SCHEMA_VERSION,
        [⟨"run", 0, none, none,
          [⟨"c::t1", "a.rs", 1, TestState.passed,
             [⟨"a.rs", [⟨["R1"], 10⟩], []⟩]⟩,
           ⟨"c::t2", "a.rs", 1, TestState.passed, []⟩], 3⟩]⟩ ∧
    drain_covered_traces (covFold sampleExtract [] ([] : List DefmtFrame)) =
      ([] : List CoveredFile) := by
  refine ⟨?_, ?_⟩ <;> decide

/-- Witness for the amended C1 theorem at the fixture scenario
`[coverage marker, running t1, running t2, terminal]`. -/
theorem C1_witness :
    coverage_from_defmt_frames sampleExtract "run" none none
        [wCov, wM12, wM23, wTerm] =
      Except.ok ⟨some SCHEMA_VERSION,
        [⟨"run", 0, none, none,
          [⟨"c::t1", "a.rs", 1, TestState.passed,
             drain_covered_traces (covFold sampleExtract [] [wCov])⟩,
           ⟨"c::t2", "a.rs", 1, TestState.passed, []⟩], 3⟩]⟩ ∧
    coverageLoop sampleExtract [wCov, wM12, wM23] initCovState =
      Except.ok ⟨[⟨"c::t1", "a.rs", 1, TestState.passed,
          drain_covered_traces (covFold sampleExtract [] [wCov])⟩], 3,
        some ⟨"c::t2", "a.rs", 1, TestState.failed, []⟩, []⟩ :=
  C1_amended_two_running_then_terminal sampleExtract "run" none none
    [wCov] [] [] wM12 wM23 wTerm ['2'] ['3'] "t1" "t2" 2 3 "a.rs" "a.rs" 1 1
    ⟨"c", [], "f"⟩ ⟨"c", [], "f"⟩
    (by decide) (by decide) (by decide) (by decide) (by decide) (by decide)
    (by decide) (by decide) (by decide) (by decide) (by decide) (by decide)
    (by decide) (by decide) (by decide) (by decide)

/-! ## Error classification of the extractor (claim C3) -/

/-- A frame lacking any of the three location fields a test marker
needs. -/
def deficientLoc (f : DefmtFrame) : Prop :=
  f.location.file = none ∨ f.location.line = none ∨
    f.location.module_path = none

instance (f : DefmtFrame) : Decidable (deficientLoc f) := by
  unfold deficientLoc
  infer_instance

/-- A test-marker frame with a parsable total but a missing location field
makes the loop fail with the missing-location error. -/
theorem processFrame_deficient (ex : String → Option CoveredReq)
    (st : CovState) (f : DefmtFrame) (cap : TestFnCapture) (n : Nat)
    (hm : testFnMatch f.data = some cap) (hp : parseU32 cap.nr_tests = some n)
    (hd : deficientLoc f) :
    processFrame ex st f =
      Except.error (CovFail.err (CoverageError.matchErr f.data)) := by
  unfold processFrame
  simp only [hm, hp]
  rcases hd with h1 | h2 | h3
  · simp only [h1]
  · cases hf : f.location.file with
    | none => simp only [hf]
    | some file => simp only [hf, h2]
  · cases hf : f.location.file with
    | none => simp only [hf]
    | some file =>
      cases hl : f.location.line with
      | none => simp only [hf, hl]
      | some line => simp only [hf, hl, h3]

/-- A frame that is not a test marker never makes the loop fail. -/
theorem processFrame_nonmarker_ok (ex : String → Option CoveredReq)
    (st : CovState) (f : DefmtFrame) (hm : testFnMatch f.data = none) :
    ∃ st₂, processFrame ex st f = Except.ok st₂ := by
  unfold processFrame
  simp only [hm]
  cases hx : ex f.data with
  | some r => exact ⟨_, rfl⟩
  | none =>
    by_cases hd : f.data = "all tests passed!"
    · rw [if_pos hd]
      exact ⟨_, rfl⟩
    · rw [if_neg hd]
      exact ⟨_, rfl⟩

/-- A test-marker frame with a parsable total and full location
information never makes the loop fail. -/
theorem processFrame_marker_ok (ex : String → Option CoveredReq)
    (st : CovState) (f : DefmtFrame) (cap : TestFnCapture) (n : Nat)
    (hm : testFnMatch f.data = some cap) (hp : parseU32 cap.nr_tests = some n)
    (hnd : ¬deficientLoc f) :
    ∃ st₂, processFrame ex st f = Except.ok st₂ := by
  unfold deficientLoc at hnd
  push_neg at hnd
  obtain ⟨h1, h2, h3⟩ := hnd
  obtain ⟨file, hf⟩ := Option.ne_none_iff_exists'.mp h1
  obtain ⟨line, hl⟩ := Option.ne_none_iff_exists'.mp h2
  obtain ⟨mp, hmp⟩ := Option.ne_none_iff_exists'.mp h3
  obtain ⟨ds, state, fn⟩ := cap
  cases state with
  | running =>
    exact ⟨_, processFrame_running ex st f ds fn n file line mp hm hp hf hl hmp⟩
  | ignoring =>
    exact ⟨_, processFrame_ignoring ex st f ds fn n file line mp hm hp hf hl hmp⟩

/-- Under the no-overflow condition, the loop fails exactly on a
location-deficient marker frame, and then always with the
missing-location error. -/
theorem coverageLoop_err_characterization (ex : String → Option CoveredReq)
    (frames : List DefmtFrame)
    (hnop : ∀ f ∈ frames, ∀ cap, testFnMatch f.data = some cap →
      (parseU32 cap.nr_tests).isSome = true) :
    ∀ st,
      ((∃ f ∈ frames, (testFnMatch f.data).isSome = true ∧ deficientLoc f) →
        ∃ d, coverageLoop ex frames st =
          Except.error (CovFail.err (CoverageError.matchErr d))) ∧
      (¬(∃ f ∈ frames, (testFnMatch f.data).isSome = true ∧ deficientLoc f) →
        ∃ st', coverageLoop ex frames st = Except.ok st') := by
  induction frames with
  | nil =>
    intro st
    constructor
    · rintro ⟨f, hf, _⟩
      exact absurd hf (List.not_mem_nil f)
    · intro _
      exact ⟨st, rfl⟩
  | cons f fs ih =>
    intro st
    have hnop' : ∀ g ∈ fs, ∀ cap, testFnMatch g.data = some cap →
        (parseU32 cap.nr_tests).isSome = true :=
      fun g hg => hnop g (List.mem_cons_of_mem f hg)
    constructor
    · rintro ⟨g, hg, hgm, hgd⟩
      rcases List.mem_cons.mp hg with hgf | hgfs
      · subst hgf
        obtain ⟨cap, hm⟩ := Option.isSome_iff_exists.mp hgm
        obtain ⟨n, hp⟩ := Option.isSome_iff_exists.mp
          (hnop g (List.mem_cons_self g fs) cap hm)
        refine ⟨g.data, ?_⟩
        simp only [coverageLoop, processFrame_deficient ex st g cap n hm hp hgd]
      · by_cases hfd : (testFnMatch f.data).isSome = true ∧ deficientLoc f
        · obtain ⟨cap, hm⟩ := Option.isSome_iff_exists.mp hfd.1
          obtain ⟨n, hp⟩ := Option.isSome_iff_exists.mp
            (hnop f (List.mem_cons_self f fs) cap hm)
          refine ⟨f.data, ?_⟩
          simp only [coverageLoop,
            processFrame_deficient ex st f cap n hm hp hfd.2]
        · have hok : ∃ st₂, processFrame ex st f = Except.ok st₂ := by
            cases hm : testFnMatch f.data with
            | none => exact processFrame_nonmarker_ok ex st f hm
            | some cap =>
              obtain ⟨n, hp⟩ := Option.isSome_iff_exists.mp
                (hnop f (List.mem_cons_self f fs) cap hm)
              refine processFrame_marker_ok ex st f cap n hm hp ?_
              intro hd
              exact hfd ⟨by rw [hm]; rfl, hd⟩
          obtain ⟨st₂, hst₂⟩ := hok
          obtain ⟨d, hdres⟩ := (ih hnop' st₂).1 ⟨g, hgfs, hgm, hgd⟩
          refine ⟨d, ?_⟩
          simp only [coverageLoop, hst₂]
          exact hdres
    · intro hno
      have hfok : ∃ st₂, processFrame ex st f = Except.ok st₂ := by
        cases hm : testFnMatch f.data with
        | none => exact processFrame_nonmarker_ok ex st f hm
        | some cap =>
          obtain ⟨n, hp⟩ := Option.isSome_iff_exists.mp
            (hnop f (List.mem_cons_self f fs) cap hm)
          refine processFrame_marker_ok ex st f cap n hm hp ?_
          intro hd
          exact hno ⟨f, List.mem_cons_self f fs, by rw [hm]; rfl, hd⟩
      obtain ⟨st₂, hst₂⟩ := hfok
      obtain ⟨st', hst'⟩ := (ih hnop' st₂).2
        (fun ⟨g, hg, hgm, hgd⟩ => hno ⟨g, List.mem_cons_of_mem f hg, hgm, hgd⟩)
      refine ⟨st', ?_⟩
      simp only [coverageLoop, hst₂]
      exact hst'

theorem coverage_nil_eq (ex : String → Option CoveredReq) (rn : String)
    (meta logs : Option String) :
    coverage_from_defmt_frames ex rn meta logs [] =
      Except.error (CovFail.err CoverageError.noTests) := rfl

theorem coverage_cons_eq (ex : String → Option CoveredReq) (rn : String)
    (meta logs : Option String) (f : DefmtFrame) (fs : List DefmtFrame)
    (hts : tsValidB f.host_timestamp = true) :
    coverage_from_defmt_frames ex rn meta logs (f :: fs) =
      match coverageLoop ex (f :: fs) initCovState with
      | Except.ok st =>
        Except.ok ⟨some SCHEMA_VERSION,
          [⟨rn, f.host_timestamp, meta, logs, st.tests, st.nr_of_tests⟩]⟩
      | Except.error e => Except.error e := by
  unfold coverage_from_defmt_frames
  simp only [List.head?_cons, hts, if_true]

theorem coverage_cons_bad (ex : String → Option CoveredReq) (rn : String)
    (meta logs : Option String) (f : DefmtFrame) (fs : List DefmtFrame)
    (hts : tsValidB f.host_timestamp = false) :
    coverage_from_defmt_frames ex rn meta logs (f :: fs) =
      Except.error (CovFail.err (CoverageError.badDate f.host_timestamp)) := by
  unfold coverage_from_defmt_frames
  simp only [List.head?_cons, hts]
  rfl

/-- Claim C3 (amended): restricted to inputs whose marker totals all
parse as a u32 — the regex captures any Unicode `\p{Nd}` digits, but
`parse::<u32>` accepts only ASCII digits within range, and the `.expect`
on it panics instead of returning an error — the extractor fails with
`NoTests` iff the input is empty, with `BadDate` iff the first frame's
timestamp is outside the valid instant range, with the missing-location
error iff some test-marker frame lacks file, line or module-path
information, and succeeds with a schema holding exactly one test run in
every other case. -/
theorem C3_amended_error_conditions (ex : String → Option CoveredReq)
    (rn : String) (meta logs : Option String) (frames : List DefmtFrame)
    (hnop : ∀ f ∈ frames, ∀ cap, testFnMatch f.data = some cap →
      (parseU32 cap.nr_tests).isSome = true) :
    (coverage_from_defmt_frames ex rn meta logs frames =
        Except.error (CovFail.err CoverageError.noTests) ↔ frames = []) ∧
    ((∃ ts, coverage_from_defmt_frames ex rn meta logs frames =
        Except.error (CovFail.err (CoverageError.badDate ts))) ↔
      (∃ first, frames.head? = some first ∧
        tsValidB first.host_timestamp = false)) ∧
    ((∃ d, coverage_from_defmt_frames ex rn meta logs frames =
        Except.error (CovFail.err (CoverageError.matchErr d))) ↔
      (frames ≠ [] ∧
        (∀ first, frames.head? = some first →
          tsValidB first.host_timestamp = true) ∧
        ∃ f ∈ frames, (testFnMatch f.data).isSome = true ∧ deficientLoc f)) ∧
    ((frames ≠ [] ∧
        (∀ first, frames.head? = some first →
          tsValidB first.host_timestamp = true) ∧
        ¬(∃ f ∈ frames, (testFnMatch f.data).isSome = true ∧ deficientLoc f)) →
      ∃ sch, coverage_from_defmt_frames ex rn meta logs frames =
          Except.ok sch ∧ sch.test_runs.length = 1) := by
  cases frames with
  | nil =>
    refine ⟨?_, ?_, ?_, ?_⟩
    · simp [coverage_nil_eq]
    · constructor
      · rintro ⟨ts, h⟩
        rw [coverage_nil_eq] at h
        simp at h
      · rintro ⟨first, hf, _⟩
        cases hf
    · constructor
      · rintro ⟨d, h⟩
        rw [coverage_nil_eq] at h
        simp at h
      · rintro ⟨hne, _, _⟩
        exact absurd rfl hne
    · rintro ⟨hne, _, _⟩
      exact absurd rfl hne
  | cons f fs =>
    have hchar := coverageLoop_err_characterization ex (f :: fs) hnop initCovState
    by_cases hts : tsValidB f.host_timestamp = true
    · by_cases hdef : ∃ g ∈ f :: fs, (testFnMatch g.data).isSome = true ∧
        deficientLoc g
      · obtain ⟨d, hres⟩ := hchar.1 hdef
        have hcov : coverage_from_defmt_frames ex rn meta logs (f :: fs) =
            Except.error (CovFail.err (CoverageError.matchErr d)) := by
          rw [coverage_cons_eq ex rn meta logs f fs hts, hres]
        refine ⟨?_, ?_, ?_, ?_⟩
        · rw [hcov]
          simp
        · rw [hcov]
          constructor
          · rintro ⟨ts, h⟩
            simp at h
          · rintro ⟨first, hf, hfalse⟩
            rw [List.head?_cons] at hf
            injection hf with hf'
            rw [← hf'] at hfalse
            rw [hts] at hfalse
            cases hfalse
        · constructor
          · intro _
            refine ⟨by simp, ?_, hdef⟩
            intro first hf
            rw [List.head?_cons] at hf
            injection hf with hf'
            rw [← hf']
            exact hts
          · intro _
            exact ⟨d, hcov⟩
        · rintro ⟨_, _, hno⟩
          exact absurd hdef hno
      · obtain ⟨st', hres⟩ := hchar.2 hdef
        have hcov : coverage_from_defmt_frames ex rn meta logs (f :: fs) =
            Except.ok ⟨some SCHEMA_VERSION,
              [⟨rn, f.host_timestamp, meta, logs, st'.tests,
                st'.nr_of_tests⟩]⟩ := by
          rw [coverage_cons_eq ex rn meta logs f fs hts, hres]
        refine ⟨?_, ?_, ?_, ?_⟩
        · rw [hcov]
          simp
        · rw [hcov]
          constructor
          · rintro ⟨ts, h⟩
            simp at h
          · rintro ⟨first, hf, hfalse⟩
            rw [List.head?_cons] at hf
            injection hf with hf'
            rw [← hf'] at hfalse
            rw [hts] at hfalse
            cases hfalse
        · constructor
          · rintro ⟨d, h⟩
            rw [hcov] at h
            simp at h
          · rintro ⟨_, _, hdef'⟩
            exact absurd hdef' hdef
        · intro _
          exact ⟨_, hcov, rfl⟩
    · have hts' : tsValidB f.host_timestamp = false := by
        cases h : tsValidB f.host_timestamp
        · rfl
        · exact absurd h hts
      have hcov := coverage_cons_bad ex rn meta logs f fs hts'
      refine ⟨?_, ?_, ?_, ?_⟩
      · rw [hcov]
        simp
      · constructor
        · intro _
          exact ⟨f, rfl, hts'⟩
        · intro _
          exact ⟨f.host_timestamp, hcov⟩
      · constructor
        · rintro ⟨d, h⟩
          rw [hcov] at h
          simp at h
        · rintro ⟨_, hall, _⟩
          have hft := hall f rfl
          rw [hts'] at hft
          cases hft
      · rintro ⟨_, hall, _⟩
        have hft := hall f rfl
        rw [hts'] at hft
        cases hft

/-- Claim C3 (counterexample): a single well-located, well-timestamped
marker frame panics instead of erroring or succeeding when its declared
total is not u32-parsable — either `4294967296` (overflow) or `٣`
(a Unicode `\p{Nd}` digit accepted by the regex but rejected by
`parse::<u32>`) — so the extractor neither raises one of the three
documented errors nor succeeds, contradicting the claim's "succeeds in
every other case". -/
theorem C3_counterexample :
    coverage_from_defmt_frames sampleExtract "run" none none
        [⟨"(1/4294967296) running `t`...", 0, wLoc⟩] =
      Except.error (CovFail.panicked
        "Number of tests must be convertible to u32.") ∧
    coverage_from_defmt_frames sampleExtract "run" none none
        [⟨"(1/٣) running `t`...", 0, wLoc⟩] =
      Except.error (CovFail.panicked
        "Number of tests must be convertible to u32.") ∧
    ([(⟨"(1/4294967296) running `t`...", 0, wLoc⟩ : DefmtFrame)] ≠ []) ∧
    tsValidB (0 : Int) = true ∧
    ¬deficientLoc ⟨"(1/4294967296) running `t`...", 0, wLoc⟩ := by
  refine ⟨?_, ?_, ?_, ?_, ?_⟩ <;> decide

/-- Witness for the amended C3 theorem: the empty input yields exactly
the no-tests error. -/
theorem C3_witness :
    coverage_from_defmt_frames sampleExtract "run" none none [] =
      Except.error (CovFail.err CoverageError.noTests) :=
  ((C3_amended_error_conditions sampleExtract "run" none none []
    (by decide)).1).mpr rfl

/-! ## Set semantics of the coverage accumulator (claim C4) -/

/-- Fold a list of coverage-marker triples into the accumulator, in
order. -/
def reqsFold (reqs : List CoveredReq) (m : TraceMap) : TraceMap :=
  reqs.foldl (fun acc r => insertCoveredReq acc r.file r.line r.id) m

/-- First binding of a line in one file's line map. -/
def lookupLine (lt : LineTraces) (l : Nat) : Option ReqIdSet :=
  match lt with
  | [] => none
  | (l', ids) :: rest => if l' = l then some ids else lookupLine rest l

/-- First binding of a file in the accumulator. -/
def lookupFile (m : TraceMap) (f : String) : Option LineTraces :=
  match m with
  | [] => none
  | (f', lt) :: rest => if f' = f then some lt else lookupFile rest f

/-- The requirement-id set recorded for one `(file, line)` pair. -/
def idsAt (m : TraceMap) (f : String) (l : Nat) : List String :=
  match lookupFile m f with
  | some lt => (lookupLine lt l).getD []
  | none => []

theorem mem_insertIfAbsent (s : ReqIdSet) (i a : String) :
    a ∈ insertIfAbsent s i ↔ a ∈ s ∨ a = i := by
  unfold insertIfAbsent
  by_cases h : i ∈ s
  · rw [if_pos h]
    constructor
    · exact Or.inl
    · rintro (ha | ha)
      · exact ha
      · rw [ha]; exact h
  · rw [if_neg h]
    simp

theorem insertIfAbsent_nodup (s : ReqIdSet) (i : String) (h : s.Nodup) :
    (insertIfAbsent s i).Nodup := by
  unfold insertIfAbsent
  by_cases hm : i ∈ s
  · rw [if_pos hm]; exact h
  · rw [if_neg hm]
    simp [List.nodup_append, h, hm]

theorem insertIfAbsent_ne_nil (s : ReqIdSet) (i : String) :
    insertIfAbsent s i ≠ [] := by
  unfold insertIfAbsent
  by_cases hm : i ∈ s
  · rw [if_pos hm]
    intro he
    rw [he] at hm
    exact absurd hm (List.not_mem_nil i)
  · rw [if_neg hm]
    simp

theorem lookupLine_update (lt : LineTraces) (line : Nat) (id : String)
    (l' : Nat) :
    lookupLine (updateLine lt line id) l' =
      if l' = line then
        some (insertIfAbsent ((lookupLine lt line).getD []) id)
      else lookupLine lt l' := by
  induction lt with
  | nil =>
    by_cases h : l' = line
    · simp [updateLine, lookupLine, h, insertIfAbsent]
    · simp [updateLine, lookupLine, h, Ne.symm h]
  | cons p rest ih =>
    obtain ⟨l, ids⟩ := p
    by_cases hl : l = line
    · subst hl
      by_cases h' : l' = l
      · subst h'
        simp [updateLine, lookupLine]
      · simp [updateLine, lookupLine, h', Ne.symm h']
    · by_cases h' : l' = l
      · subst h'
        simp [updateLine, lookupLine, hl]
      · have hll : ¬l = l' := Ne.symm h'
        simp [updateLine, lookupLine, hl, hll, ih]

theorem lookupFile_insert (m : TraceMap) (file : String) (line : Nat)
    (id : String) (f' : String) :
    lookupFile (insertCoveredReq m file line id) f' =
      if f' = file then
        some (updateLine ((lookupFile m file).getD []) line id)
      else lookupFile m f' := by
  induction m with
  | nil =>
    by_cases h : f' = file
    · simp [insertCoveredReq, lookupFile, h, updateLine]
    · simp [insertCoveredReq, lookupFile, h, Ne.symm h]
  | cons p rest ih =>
    obtain ⟨f, lt⟩ := p
    by_cases hf : f = file
    · subst hf
      by_cases h' : f' = f
      · subst h'
        simp [insertCoveredReq, lookupFile]
      · simp [insertCoveredReq, lookupFile, h', Ne.symm h']
    · by_cases h' : f' = f
      · subst h'
        simp [insertCoveredReq, lookupFile, hf]
      · have hff : ¬f = f' := Ne.symm h'
        simp [insertCoveredReq, lookupFile, hf, hff, ih]

theorem idsAt_insert (m : TraceMap) (file : String) (line : Nat) (id : String)
    (f' : String) (l' : Nat) :
    idsAt (insertCoveredReq m file line id) f' l' =
      if f' = file ∧ l' = line then insertIfAbsent (idsAt m file line) id
      else idsAt m f' l' := by
  unfold idsAt
  rw [lookupFile_insert]
  by_cases hf : f' = file
  · subst hf
    rw [if_pos rfl]
    dsimp only
    rw [lookupLine_update]
    by_cases hl : l' = line
    · subst hl
      rw [if_pos rfl, if_pos ⟨rfl, rfl⟩]
      cases hlf : lookupFile m f' with
      | none => simp [lookupLine]
      | some lt => simp
    · rw [if_neg hl, if_neg (fun hh => hl hh.2)]
      cases hlf : lookupFile m f' with
      | none => simp [lookupLine]
      | some lt => simp
  · rw [if_neg hf, if_neg (fun hh => hf hh.1)]

theorem idsAt_nil (f : String) (l : Nat) : idsAt [] f l = [] := rfl

theorem idsAt_fold_mem (reqs : List CoveredReq) (m : TraceMap) (f : String)
    (l : Nat) (a : String) :
    a ∈ idsAt (reqsFold reqs m) f l ↔
      a ∈ idsAt m f l ∨ (⟨a, f, l⟩ : CoveredReq) ∈ reqs := by
  induction reqs generalizing m with
  | nil => simp [reqsFold]
  | cons r rs ih =>
    have step : reqsFold (r :: rs) m =
        reqsFold rs (insertCoveredReq m r.file r.line r.id) := rfl
    rw [step, ih]
    rw [idsAt_insert]
    by_cases hfl : f = r.file ∧ l = r.line
    · rw [if_pos hfl]
      rw [mem_insertIfAbsent]
      obtain ⟨hf, hl⟩ := hfl
      subst hf
      subst hl
      constructor
      · rintro ((ha | ha) | ha)
        · exact Or.inl ha
        · refine Or.inr (List.mem_cons.mpr (Or.inl ?_))
          obtain ⟨ri, rf, rl⟩ := r
          simp only at ha ⊢
          rw [ha]
        · exact Or.inr (List.mem_cons.mpr (Or.inr ha))
      · rintro (ha | ha)
        · exact Or.inl (Or.inl ha)
        · rcases List.mem_cons.mp ha with ha' | ha'
          · obtain ⟨ri, rf, rl⟩ := r
            cases ha'
            exact Or.inl (Or.inr rfl)
          · exact Or.inr ha'
    · rw [if_neg hfl]
      constructor
      · rintro (ha | ha)
        · exact Or.inl ha
        · exact Or.inr (List.mem_cons.mpr (Or.inr ha))
      · rintro (ha | ha)
        · exact Or.inl ha
        · rcases List.mem_cons.mp ha with ha' | ha'
          · exfalso
            apply hfl
            rw [← ha']
            exact ⟨rfl, rfl⟩
          · exact Or.inr ha'

theorem updateLine_cons_eq (l : Nat) (ids : ReqIdSet) (rest : LineTraces)
    (id : String) :
    updateLine ((l, ids) :: rest) l id = (l, insertIfAbsent ids id) :: rest := by
  simp [updateLine]

theorem updateLine_cons_ne (l line : Nat) (ids : ReqIdSet) (rest : LineTraces)
    (id : String) (hl : ¬l = line) :
    updateLine ((l, ids) :: rest) line id =
      (l, ids) :: updateLine rest line id := by
  simp [updateLine, hl]

theorem insertCoveredReq_cons_eq (f : String) (lt : LineTraces)
    (rest : TraceMap) (line : Nat) (id : String) :
    insertCoveredReq ((f, lt) :: rest) f line id =
      (f, updateLine lt line id) :: rest := by
  simp [insertCoveredReq]

theorem insertCoveredReq_cons_ne (f file : String) (lt : LineTraces)
    (rest : TraceMap) (line : Nat) (id : String) (hf : ¬f = file) :
    insertCoveredReq ((f, lt) :: rest) file line id =
      (f, lt) :: insertCoveredReq rest file line id := by
  simp [insertCoveredReq, hf]

theorem lookupLine_cons (l' : Nat) (ids : ReqIdSet) (rest : LineTraces)
    (l : Nat) :
    lookupLine ((l', ids) :: rest) l =
      if l' = l then some ids else lookupLine rest l := rfl

theorem lookupFile_cons (f' : String) (lt : LineTraces) (rest : TraceMap)
    (f : String) :
    lookupFile ((f', lt) :: rest) f =
      if f' = f then some lt else lookupFile rest f := rfl

/-- Well-formed line map: distinct line keys, and every id set nonempty
and duplicate-free. -/
def WFLine (lt : LineTraces) : Prop :=
  (lt.map Prod.fst).Nodup ∧ ∀ p ∈ lt, p.2 ≠ [] ∧ p.2.Nodup

/-- Well-formed accumulator: distinct file keys, all line maps
well-formed. -/
def WFMap (m : TraceMap) : Prop :=
  (m.map Prod.fst).Nodup ∧ ∀ q ∈ m, WFLine q.2

theorem mem_keys_updateLine (lt : LineTraces) (line : Nat) (id : String)
    (k : Nat) :
    k ∈ (updateLine lt line id).map Prod.fst ↔
      k ∈ lt.map Prod.fst ∨ k = line := by
  induction lt with
  | nil => simp [updateLine]
  | cons p rest ih =>
    obtain ⟨l, ids⟩ := p
    by_cases hl : l = line
    · subst hl
      rw [updateLine_cons_eq]
      simp only [List.map_cons, List.mem_cons]
      tauto
    · rw [updateLine_cons_ne l line ids rest id hl]
      simp only [List.map_cons, List.mem_cons, ih]
      tauto

theorem wf_updateLine (lt : LineTraces) (line : Nat) (id : String)
    (h : WFLine lt) : WFLine (updateLine lt line id) := by
  induction lt with
  | nil =>
    constructor
    · simp [updateLine]
    · intro p hp
      simp only [updateLine] at hp
      rcases List.mem_singleton.mp hp with rfl
      exact ⟨by simp, by simp⟩
  | cons q rest ih =>
    obtain ⟨l, ids⟩ := q
    obtain ⟨hkeys, hents⟩ := h
    rw [List.map_cons, List.nodup_cons] at hkeys
    have hrest : WFLine rest :=
      ⟨hkeys.2, fun p hp => hents p (List.mem_cons_of_mem _ hp)⟩
    by_cases hl : l = line
    · subst hl
      constructor
      · rw [updateLine_cons_eq]
        simp only [List.map_cons, List.nodup_cons]
        exact hkeys
      · intro p hp
        rw [updateLine_cons_eq] at hp
        rcases List.mem_cons.mp hp with rfl | hp'
        · have hh := hents (l, ids) (List.mem_cons_self _ _)
          exact ⟨insertIfAbsent_ne_nil ids id, insertIfAbsent_nodup ids id hh.2⟩
        · exact hents p (List.mem_cons_of_mem _ hp')
    · have ihw := ih hrest
      constructor
      · rw [updateLine_cons_ne l line ids rest id hl]
        simp only [List.map_cons, List.nodup_cons]
        refine ⟨?_, ihw.1⟩
        intro hmem
        rcases (mem_keys_updateLine rest line id l).mp hmem with hm | hm
        · exact hkeys.1 hm
        · exact hl hm
      · intro p hp
        rw [updateLine_cons_ne l line ids rest id hl] at hp
        rcases List.mem_cons.mp hp with rfl | hp'
        · exact hents (l, ids) (List.mem_cons_self _ _)
        · exact ihw.2 p hp'

theorem mem_keys_insert (m : TraceMap) (file : String) (line : Nat)
    (id : String) (k : String) :
    k ∈ (insertCoveredReq m file line id).map Prod.fst ↔
      k ∈ m.map Prod.fst ∨ k = file := by
  induction m with
  | nil => simp [insertCoveredReq]
  | cons p rest ih =>
    obtain ⟨f, lt⟩ := p
    by_cases hf : f = file
    · subst hf
      rw [insertCoveredReq_cons_eq]
      simp only [List.map_cons, List.mem_cons]
      tauto
    · rw [insertCoveredReq_cons_ne f file lt rest line id hf]
      simp only [List.map_cons, List.mem_cons, ih]
      tauto

theorem wf_insert (m : TraceMap) (file : String) (line : Nat) (id : String)
    (h : WFMap m) : WFMap (insertCoveredReq m file line id) := by
  induction m with
  | nil =>
    constructor
    · simp [insertCoveredReq]
    · intro q hq
      simp only [insertCoveredReq] at hq
      rcases List.mem_singleton.mp hq with rfl
      constructor
      · simp [updateLine]
      · intro p hp
        simp only [updateLine] at hp
        rcases List.mem_singleton.mp hp with rfl
        exact ⟨by simp, by simp⟩
  | cons q rest ih =>
    obtain ⟨f, lt⟩ := q
    obtain ⟨hkeys, hents⟩ := h
    rw [List.map_cons, List.nodup_cons] at hkeys
    have hrest : WFMap rest :=
      ⟨hkeys.2, fun p hp => hents p (List.mem_cons_of_mem _ hp)⟩
    by_cases hf : f = file
    · subst hf
      constructor
      · rw [insertCoveredReq_cons_eq]
        simp only [List.map_cons, List.nodup_cons]
        exact hkeys
      · intro p hp
        rw [insertCoveredReq_cons_eq] at hp
        rcases List.mem_cons.mp hp with rfl | hp'
        · exact wf_updateLine lt line id (hents (f, lt) (List.mem_cons_self _ _))
        · exact hents p (List.mem_cons_of_mem _ hp')
    · have ihw := ih hrest
      constructor
      · rw [insertCoveredReq_cons_ne f file lt rest line id hf]
        simp only [List.map_cons, List.nodup_cons]
        refine ⟨?_, ihw.1⟩
        intro hmem
        rcases (mem_keys_insert rest file line id f).mp hmem with hm | hm
        · exact hkeys.1 hm
        · exact hf hm
      · intro p hp
        rw [insertCoveredReq_cons_ne f file lt rest line id hf] at hp
        rcases List.mem_cons.mp hp with rfl | hp'
        · exact hents (f, lt) (List.mem_cons_self _ _)
        · exact ihw.2 p hp'

theorem wf_nil : WFMap [] :=
  ⟨List.nodup_nil, fun q hq => absurd hq (List.not_mem_nil q)⟩

theorem wf_reqsFold (reqs : List CoveredReq) (m : TraceMap) (h : WFMap m) :
    WFMap (reqsFold reqs m) := by
  induction reqs generalizing m with
  | nil => exact h
  | cons r rs ih => exact ih _ (wf_insert m r.file r.line r.id h)

theorem lookupFile_of_mem (m : TraceMap) (f : String) (lt : LineTraces)
    (hk : (m.map Prod.fst).Nodup) (hm : (f, lt) ∈ m) :
    lookupFile m f = some lt := by
  induction m with
  | nil => exact absurd hm (List.not_mem_nil _)
  | cons q rest ih =>
    obtain ⟨f', lt'⟩ := q
    rw [List.map_cons, List.nodup_cons] at hk
    rcases List.mem_cons.mp hm with he | hm'
    · injection he with h1 h2
      subst h1
      subst h2
      simp [lookupFile]
    · have hne : ¬f' = f := by
        intro he
        subst he
        exact hk.1 (List.mem_map.mpr ⟨(f', lt), hm', rfl⟩)
      rw [lookupFile_cons, if_neg hne]
      exact ih hk.2 hm'

theorem lookupLine_of_mem (lt : LineTraces) (l : Nat) (ids : ReqIdSet)
    (hk : (lt.map Prod.fst).Nodup) (hm : (l, ids) ∈ lt) :
    lookupLine lt l = some ids := by
  induction lt with
  | nil => exact absurd hm (List.not_mem_nil _)
  | cons q rest ih =>
    obtain ⟨l', ids'⟩ := q
    rw [List.map_cons, List.nodup_cons] at hk
    rcases List.mem_cons.mp hm with he | hm'
    · injection he with h1 h2
      subst h1
      subst h2
      simp [lookupLine]
    · have hne : ¬l' = l := by
        intro he
        subst he
        exact hk.1 (List.mem_map.mpr ⟨(l', ids), hm', rfl⟩)
      rw [lookupLine_cons, if_neg hne]
      exact ih hk.2 hm'

theorem mem_of_lookupFile (m : TraceMap) (f : String) (lt : LineTraces)
    (h : lookupFile m f = some lt) : (f, lt) ∈ m := by
  induction m with
  | nil => cases h
  | cons q rest ih =>
    obtain ⟨f', lt'⟩ := q
    by_cases hf : f' = f
    · subst hf
      rw [lookupFile_cons, if_pos rfl] at h
      injection h with h'
      subst h'
      exact List.mem_cons_self _ _
    · rw [lookupFile_cons, if_neg hf] at h
      exact List.mem_cons_of_mem _ (ih h)

theorem mem_of_lookupLine (lt : LineTraces) (l : Nat) (ids : ReqIdSet)
    (h : lookupLine lt l = some ids) : (l, ids) ∈ lt := by
  induction lt with
  | nil => cases h
  | cons q rest ih =>
    obtain ⟨l', ids'⟩ := q
    by_cases hl : l' = l
    · subst hl
      rw [lookupLine_cons, if_pos rfl] at h
      injection h with h'
      subst h'
      exact List.mem_cons_self _ _
    · rw [lookupLine_cons, if_neg hl] at h
      exact List.mem_cons_of_mem _ (ih h)

theorem updateLine_noop (lt : LineTraces) (l : Nat) (i : String)
    (h : i ∈ (lookupLine lt l).getD []) : updateLine lt l i = lt := by
  induction lt with
  | nil => exact absurd h (List.not_mem_nil i)
  | cons q rest ih =>
    obtain ⟨l', ids⟩ := q
    by_cases hl : l' = l
    · subst hl
      rw [lookupLine_cons, if_pos rfl, Option.getD_some] at h
      rw [updateLine_cons_eq]
      unfold insertIfAbsent
      rw [if_pos h]
    · rw [lookupLine_cons, if_neg hl] at h
      rw [updateLine_cons_ne l' l ids rest i hl, ih h]

theorem insert_noop (m : TraceMap) (f : String) (l : Nat) (i : String)
    (h : i ∈ idsAt m f l) : insertCoveredReq m f l i = m := by
  induction m with
  | nil => exact absurd h (List.not_mem_nil i)
  | cons q rest ih =>
    obtain ⟨f', lt⟩ := q
    by_cases hf : f' = f
    · subst hf
      unfold idsAt at h
      rw [lookupFile_cons, if_pos rfl] at h
      rw [insertCoveredReq_cons_eq, updateLine_noop lt l i h]
    · unfold idsAt at h
      rw [lookupFile_cons, if_neg hf] at h
      rw [insertCoveredReq_cons_ne f' f lt rest l i hf]
      have h2 : i ∈ idsAt rest f l := h
      rw [ih h2]

theorem idsAt_eq_of_lookupFile (m : TraceMap) (f : String) (l : Nat)
    (lt : LineTraces) (hlf : lookupFile m f = some lt) :
    idsAt m f l = (lookupLine lt l).getD [] := by
  unfold idsAt
  rw [hlf]

theorem drain_map_filepath (m : TraceMap) :
    (drain_covered_traces m).map (fun cf => cf.filepath) = m.map Prod.fst := by
  unfold drain_covered_traces
  rw [List.map_map]
  rfl

theorem mem_drain (m : TraceMap) (cf : CoveredFile) :
    cf ∈ drain_covered_traces m ↔
      ∃ p ∈ m, cf = ⟨p.1, p.2.map (fun lr => ⟨lr.2, lr.1⟩), []⟩ := by
  unfold drain_covered_traces
  rw [List.mem_map]
  constructor
  · rintro ⟨p, hp, he⟩
    exact ⟨p, hp, he.symm⟩
  · rintro ⟨p, hp, he⟩
    exact ⟨p, hp, he.symm⟩

/-- Claim C4: folding the coverage markers of one open test interval and
draining yields set semantics — at most one `CoveredFile` per file, one
`CoveredFileTrace` per line, each trace's `req_ids` holding every
distinct requirement id asserted there exactly once and never empty;
re-inserting an already recorded marker is a no-op. -/
theorem C4_accumulator_set_semantics (reqs : List CoveredReq) :
    ((drain_covered_traces (reqsFold reqs [])).map
      (fun cf => cf.filepath)).Nodup ∧
    (∀ cf ∈ drain_covered_traces (reqsFold reqs []),
      (cf.covered_traces.map (fun tr => tr.line)).Nodup) ∧
    (∀ cf ∈ drain_covered_traces (reqsFold reqs []),
      ∀ tr ∈ cf.covered_traces,
        tr.req_ids ≠ [] ∧ tr.req_ids.Nodup ∧
        (∀ a, a ∈ tr.req_ids ↔
          (⟨a, cf.filepath, tr.line⟩ : CoveredReq) ∈ reqs)) ∧
    (∀ r ∈ reqs, ∃ cf ∈ drain_covered_traces (reqsFold reqs []),
      cf.filepath = r.file ∧ ∃ tr ∈ cf.covered_traces, tr.line = r.line) ∧
    (∀ r ∈ reqs, reqsFold (reqs ++ [r]) [] = reqsFold reqs []) := by
  have hwf : WFMap (reqsFold reqs []) := wf_reqsFold reqs [] wf_nil
  obtain ⟨hkeys, hents⟩ := hwf
  refine ⟨?_, ?_, ?_, ?_, ?_⟩
  · rw [drain_map_filepath]
    exact hkeys
  · intro cf hcf
    rcases (mem_drain _ cf).mp hcf with ⟨p, hp, rfl⟩
    rw [List.map_map]
    exact (hents p hp).1
  · intro cf hcf tr htr
    rcases (mem_drain _ cf).mp hcf with ⟨p, hp, rfl⟩
    rcases List.mem_map.mp htr with ⟨lr, hlr, rfl⟩
    have hwl := hents p hp
    have hids : idsAt (reqsFold reqs []) p.1 lr.1 = lr.2 := by
      rw [idsAt_eq_of_lookupFile (reqsFold reqs []) p.1 lr.1 p.2
        (lookupFile_of_mem (reqsFold reqs []) p.1 p.2 hkeys hp)]
      rw [lookupLine_of_mem p.2 lr.1 lr.2 hwl.1 hlr]
      rfl
    refine ⟨(hwl.2 lr hlr).1, (hwl.2 lr hlr).2, ?_⟩
    intro a
    have := idsAt_fold_mem reqs [] p.1 lr.1 a
    rw [hids, idsAt_nil] at this
    rw [this]
    simp
  · intro r hr
    obtain ⟨ri, rf, rl⟩ := r
    have hmem : ri ∈ idsAt (reqsFold reqs []) rf rl :=
      (idsAt_fold_mem reqs [] rf rl ri).mpr (Or.inr hr)
    cases hlf : lookupFile (reqsFold reqs []) rf with
    | none =>
      unfold idsAt at hmem
      rw [hlf] at hmem
      exact absurd hmem (List.not_mem_nil ri)
    | some lt =>
      rw [idsAt_eq_of_lookupFile (reqsFold reqs []) rf rl lt hlf] at hmem
      cases hll : lookupLine lt rl with
      | none =>
        rw [hll] at hmem
        simp at hmem
      | some ids =>
        have hpm := mem_of_lookupFile _ rf lt hlf
        have hlm := mem_of_lookupLine lt rl ids hll
        refine ⟨⟨rf, lt.map (fun lr => ⟨lr.2, lr.1⟩), []⟩, ?_, rfl, ?_⟩
        · exact (mem_drain _ _).mpr ⟨(rf, lt), hpm, rfl⟩
        · exact ⟨⟨ids, rl⟩, List.mem_map.mpr ⟨(rl, ids), hlm, rfl⟩, rfl⟩
  · intro r hr
    have hmem : r.id ∈ idsAt (reqsFold reqs []) r.file r.line := by
      refine (idsAt_fold_mem reqs [] r.file r.line r.id).mpr (Or.inr ?_)
      obtain ⟨ri, rf, rl⟩ := r
      exact hr
    unfold reqsFold
    rw [List.foldl_append]
    exact insert_noop (reqsFold reqs []) r.file r.line r.id hmem

/-- Witness exercising the C4 duplicate-idempotence conjunct at a
concrete marker list. -/
theorem C4_witness :
    reqsFold ([⟨"R1", "a.rs", 10⟩, ⟨"R2", "a.rs", 10⟩] ++
        [⟨"R1", "a.rs", 10⟩]) [] =
      reqsFold [⟨"R1", "a.rs", 10⟩, ⟨"R2", "a.rs", 10⟩] [] :=
  (C4_accumulator_set_semantics
      [⟨"R1", "a.rs", 10⟩, ⟨"R2", "a.rs", 10⟩]).2.2.2.2
    ⟨"R1", "a.rs", 10⟩ (by decide)

/-! ## Claims C5, C6, C9 over the run and decode models -/

/-- Claim C5 (counterexample): one inert frame (no test marker at all)
still produces a coverage file — with an empty test list and
`nr_of_tests = 0` — so a file is written although no test was observed. -/
theorem C5_counterexample :
    run_coverage_stage sampleExtract "run" none none
        [⟨"hello", 0, ⟨none, none, none⟩⟩] =
      some ⟨some SCHEMA_VERSION, [⟨"run", 0, none, none, [], 0⟩]⟩ := by
  decide

/-- Claim C5 (amended): the coverage file is written iff extraction
succeeds — an empty frame sequence yields no file, a written file always
holds the complete successfully-assembled schema (never a partial
artifact), and any extraction error suppresses the write; observing zero
tests in a nonempty sequence does not suppress it. -/
theorem C5_amended_write_iff_extraction_ok (ex : String → Option CoveredReq)
    (rn : String) (meta logs : Option String) (frames : List DefmtFrame) :
    (frames = [] → run_coverage_stage ex rn meta logs frames = none) ∧
    (∀ cov, run_coverage_stage ex rn meta logs frames = some cov →
      coverage_from_defmt_frames ex rn meta logs frames = Except.ok cov) ∧
    (∀ e, coverage_from_defmt_frames ex rn meta logs frames =
        Except.error e →
      run_coverage_stage ex rn meta logs frames = none) := by
  refine ⟨?_, ?_, ?_⟩
  · intro he
    subst he
    rfl
  · intro cov hc
    unfold run_coverage_stage at hc
    cases hres : coverage_from_defmt_frames ex rn meta logs frames with
    | ok cov' =>
      rw [hres] at hc
      injection hc with hc'
      rw [hc']
    | error e =>
      rw [hres] at hc
      cases hc
  · intro e he
    unfold run_coverage_stage
    rw [he]

/-- Witness for the amended C5 theorem: the empty frame sequence emits no
coverage file. -/
theorem C5_witness :
    run_coverage_stage sampleExtract "run" none none [] = none :=
  (C5_amended_write_iff_extraction_ok sampleExtract "run" none none []).1 rfl

/-- Claim C6: in the stream-decode loop, `UnexpectedEof` is never an
error (it ends the inner loop with the frames so far, so more bytes can
be read); `Malformed` with a recoverable encoding skips the corrupt span
and keeps decoding later well-formed frames; `Malformed` with a
non-recoverable encoding aborts the whole read with `MalformedFrame`. -/
theorem C6_decode_error_classification (c : Bool) (acc : List DefmtFrame)
    (t : List DecodeResult) (f : DefmtFrame) :
    decodeLoop c acc (DecodeResult.unexpectedEof :: t) = Except.ok acc ∧
    decodeLoop true acc (DecodeResult.malformed :: t) =
      decodeLoop true acc t ∧
    decodeLoop false acc (DecodeResult.malformed :: t) =
      Except.error DefmtError.malformedFrame ∧
    decodeLoop true acc
        (DecodeResult.malformed :: DecodeResult.ok f ::
          DecodeResult.unexpectedEof :: t) =
      Except.ok (acc ++ [f]) := by
  refine ⟨rfl, ?_, ?_, ?_⟩
  · simp [decodeLoop]
  · simp [decodeLoop]
  · simp [decodeLoop]

/-- The wait loop times out exactly when a still-running poll is observed
past the 12000 ms bound, all earlier polls also being still-running
within the bound. -/
theorem wait_timeout_iff (polls : List (PollEvent × Nat)) :
    wait_for_gdb_exit polls = WaitOutcome.timeoutKilled ↔
      ∃ pre elapsed rest,
        polls = pre ++ (PollEvent.stillRunning, elapsed) :: rest ∧
        (∀ q ∈ pre, q.1 = PollEvent.stillRunning ∧ q.2 ≤ 12000) ∧
        12000 < elapsed := by
  induction polls with
  | nil =>
    constructor
    · intro h
      cases h
    · rintro ⟨pre, elapsed, rest, he, _, _⟩
      cases pre <;> cases he
  | cons q rest ih =>
    obtain ⟨ev, e⟩ := q
    cases ev with
    | exited st =>
      constructor
      · intro h
        cases h
      · rintro ⟨pre, elapsed, rest', he, hpre, _⟩
        cases pre with
        | nil => cases he
        | cons p pre' =>
          injection he with h1 h2
          have := (hpre p (List.mem_cons_self p pre')).1
          rw [← h1] at this
          cases this
    | pollErr msg =>
      constructor
      · intro h
        cases h
      · rintro ⟨pre, elapsed, rest', he, hpre, _⟩
        cases pre with
        | nil => cases he
        | cons p pre' =>
          injection he with h1 h2
          have := (hpre p (List.mem_cons_self p pre')).1
          rw [← h1] at this
          cases this
    | stillRunning =>
      by_cases hb : 12000 < e
      · constructor
        · intro _
          exact ⟨[], e, rest, rfl,
            fun p hp => absurd hp (List.not_mem_nil p), hb⟩
        · intro _
          simp [wait_for_gdb_exit, hb]
      · have hb' : e ≤ 12000 := Nat.le_of_not_lt hb
        have hstep : wait_for_gdb_exit ((PollEvent.stillRunning, e) :: rest) =
            wait_for_gdb_exit rest := by
          simp [wait_for_gdb_exit, hb]
        rw [hstep, ih]
        constructor
        · rintro ⟨pre, elapsed, rest', he, hpre, hel⟩
          refine ⟨(PollEvent.stillRunning, e) :: pre, elapsed, rest', ?_, ?_, hel⟩
          · rw [he]
            rfl
          · intro p hp
            rcases List.mem_cons.mp hp with rfl | hp'
            · exact ⟨rfl, hb'⟩
            · exact hpre p hp'
        · rintro ⟨pre, elapsed, rest', he, hpre, hel⟩
          cases pre with
          | nil =>
            injection he with h1 h2
            injection h1 with h1a h1b
            rw [h1b] at hb
            exact absurd hel hb
          | cons p pre' =>
            injection he with h1 h2
            refine ⟨pre', elapsed, rest', h2, ?_, hel⟩
            intro u hu
            exact hpre u (List.mem_cons_of_mem p hu)

/-- Claim C9: the wait-for-exit poll loop is bounded by the 12000 ms
execution timeout — it kills the process and raises the timeout error
(the code reuses `RttTimeout` for it) exactly when a still-running poll
past the bound is reached; a normal exit hands the exit status back as a
success value, and even a poll error becomes an error-valued
`gdb_result` inside the overall success, the caller's concern. -/
theorem C9_wait_bounded_by_execution_timeout
    (scanEvents : List OcdReadEvent) (polls rest : List (PollEvent × Nat))
    (st : Int) (elapsed : Nat) (msg : String) :
    (wait_for_gdb_exit polls = WaitOutcome.timeoutKilled ↔
      ∃ pre elapsed2 rest2,
        polls = pre ++ (PollEvent.stillRunning, elapsed2) :: rest2 ∧
        (∀ q ∈ pre, q.1 = PollEvent.stillRunning ∧ q.2 ≤ 12000) ∧
        12000 < elapsed2) ∧
    (wait_for_gdb_exit polls = WaitOutcome.timeoutKilled →
      ∀ c', readiness_scan [] scanEvents = ScanOutcome.ready c' →
        run_gdb_sequence_model scanEvents polls =
            GdbSeqOutcome.executionTimeout ∧
          processKilled GdbSeqOutcome.executionTimeout = true ∧
          seqError GdbSeqOutcome.executionTimeout =
            some RunnerError.rttTimeout) ∧
    (wait_for_gdb_exit ((PollEvent.exited st, elapsed) :: rest) =
      WaitOutcome.finished (Except.ok st)) ∧
    (wait_for_gdb_exit ((PollEvent.pollErr msg, elapsed) :: rest) =
      WaitOutcome.finished (Except.error (RunnerError.gdb msg))) ∧
    (∀ c', readiness_scan [] scanEvents = ScanOutcome.ready c' →
      wait_for_gdb_exit polls = WaitOutcome.finished (Except.ok st) →
      run_gdb_sequence_model scanEvents polls =
        GdbSeqOutcome.completed (Except.ok st)) := by
  refine ⟨wait_timeout_iff polls, ?_, rfl, rfl, ?_⟩
  · intro hw c' hr
    unfold run_gdb_sequence_model
    rw [hr, hw]
    exact ⟨rfl, rfl, rfl⟩
  · intro c' hr hw
    unfold run_gdb_sequence_model
    rw [hr, hw]

/-- Witness for C9: a single still-running poll at 12001 ms elapsed after
a readiness scan that hit the marker. -/
theorem C9_witness :
    run_gdb_sequence_model [OcdReadEvent.chunk "for rtt connection".toList]
        [(PollEvent.stillRunning, 12001)] = GdbSeqOutcome.executionTimeout :=
  ((C9_wait_bounded_by_execution_timeout
      [OcdReadEvent.chunk "for rtt connection".toList]
      [(PollEvent.stillRunning, 12001)] [] 0 0 "").2.1 (by decide)
    ("for rtt connection".toList) (by decide)).1

/-! ## Claim C8: readiness timeout -/

/-- The readiness scan times out exactly when a zero-length read past the
12000 ms bound is reached with the marker never having been observed
before it. -/
theorem readiness_scan_timeout_iff (evs : List OcdReadEvent) :
    ∀ content, readiness_scan content evs = ScanOutcome.timeoutKilled ↔
      ∃ pre elapsed rest c',
        evs = pre ++ OcdReadEvent.empty elapsed :: rest ∧
        scanGoes content pre = some c' ∧ 12000 < elapsed := by
  induction evs with
  | nil =>
    intro content
    constructor
    · intro h
      cases h
    · rintro ⟨pre, elapsed, rest, c', he, _, _⟩
      cases pre <;> cases he
  | cons ev rest ih =>
    intro content
    cases ev with
    | chunk bs =>
      by_cases hm : markerHit (content ++ bs) bs.length
      · have hscan : readiness_scan content (OcdReadEvent.chunk bs :: rest) =
            ScanOutcome.ready (content ++ bs) := by
          simp [readiness_scan, hm]
        rw [hscan]
        constructor
        · intro h
          cases h
        · rintro ⟨pre, elapsed, rest', c', he, hgo, hel⟩
          cases pre with
          | nil => simp at he
          | cons p pre' =>
            injection he with h1 h2
            rw [← h1] at hgo
            simp [scanGoes, hm] at hgo
      · have hscan : readiness_scan content (OcdReadEvent.chunk bs :: rest) =
            readiness_scan (content ++ bs) rest := by
          simp [readiness_scan, hm]
        rw [hscan, ih (content ++ bs)]
        constructor
        · rintro ⟨pre, elapsed, rest', c', he, hgo, hel⟩
          refine ⟨OcdReadEvent.chunk bs :: pre, elapsed, rest', c', ?_, ?_, hel⟩
          · rw [he]
            rfl
          · simp [scanGoes, hm, hgo]
        · rintro ⟨pre, elapsed, rest', c', he, hgo, hel⟩
          cases pre with
          | nil => simp at he
          | cons p pre' =>
            injection he with h1 h2
            rw [← h1] at hgo
            simp only [scanGoes] at hgo
            rw [if_neg hm] at hgo
            exact ⟨pre', elapsed, rest', c', h2, hgo, hel⟩
    | empty e =>
      by_cases hb : 12000 < e
      · have hscan : readiness_scan content (OcdReadEvent.empty e :: rest) =
            ScanOutcome.timeoutKilled := by
          simp [readiness_scan, hb]
        rw [hscan]
        constructor
        · intro _
          exact ⟨[], e, rest, content, rfl, rfl, hb⟩
        · intro _
          rfl
      · have hscan : readiness_scan content (OcdReadEvent.empty e :: rest) =
            readiness_scan content rest := by
          simp [readiness_scan, hb]
        rw [hscan, ih content]
        constructor
        · rintro ⟨pre, elapsed, rest', c', he, hgo, hel⟩
          refine ⟨OcdReadEvent.empty e :: pre, elapsed, rest', c', ?_, ?_, hel⟩
          · rw [he]
            rfl
          · simp [scanGoes, hb, hgo]
        · rintro ⟨pre, elapsed, rest', c', he, hgo, hel⟩
          cases pre with
          | nil =>
            injection he with h1 h2
            injection h1 with h1a
            rw [h1a] at hb
            exact absurd hel hb
          | cons p pre' =>
            injection he with h1 h2
            rw [← h1] at hgo
            simp only [scanGoes] at hgo
            rw [if_neg hb] at hgo
            exact ⟨pre', elapsed, rest', c', h2, hgo, hel⟩
    | readErr =>
      constructor
      · intro h
        cases h
      · rintro ⟨pre, elapsed, rest', c', he, hgo, hel⟩
        cases pre with
        | nil => simp at he
        | cons p pre' =>
          injection he with h1 h2
          rw [← h1] at hgo
          simp [scanGoes] at hgo

/-- Claim C8: when the readiness marker is not observed within the setup
timeout (a zero-length stderr read past 12000 ms with no prior marker
hit), the spawned process is killed and `run_gdb_sequence` returns the
readiness-timeout error (`RttTimeout` in the code) without the decode
task ever being started. -/
theorem C8_readiness_timeout (scanEvents : List OcdReadEvent)
    (polls : List (PollEvent × Nat)) :
    (readiness_scan [] scanEvents = ScanOutcome.timeoutKilled →
      run_gdb_sequence_model scanEvents polls =
          GdbSeqOutcome.readinessTimeout ∧
        processKilled GdbSeqOutcome.readinessTimeout = true ∧
        decodeTaskStarted GdbSeqOutcome.readinessTimeout = false ∧
        seqError GdbSeqOutcome.readinessTimeout =
          some RunnerError.rttTimeout) ∧
    (readiness_scan [] scanEvents = ScanOutcome.timeoutKilled ↔
      ∃ pre elapsed rest c',
        scanEvents = pre ++ OcdReadEvent.empty elapsed :: rest ∧
        scanGoes [] pre = some c' ∧ 12000 < elapsed) := by
  refine ⟨?_, readiness_scan_timeout_iff scanEvents []⟩
  intro h
  unfold run_gdb_sequence_model
  rw [h]
  exact ⟨rfl, rfl, rfl, rfl⟩

/-- Witness for C8: a 12001 ms zero-length read with no marker output. -/
theorem C8_witness :
    run_gdb_sequence_model [OcdReadEvent.empty 12001] [] =
      GdbSeqOutcome.readinessTimeout :=
  ((C8_readiness_timeout [OcdReadEvent.empty 12001] []).1 (by decide)).1

/-! ## Claim C7: outer read loop of read_defmt_frames -/

/-- The inner decode loop is the same computation whatever frames were
already accumulated: the new frames are appended, and errors are
independent of the accumulator. -/
theorem decodeLoop_acc (c : Bool) (acc : List DefmtFrame)
    (t : List DecodeResult) :
    decodeLoop c acc t =
      match decodeLoop c [] t with
      | Except.ok l => Except.ok (acc ++ l)
      | Except.error e => Except.error e := by
  induction t generalizing acc with
  | nil => simp [decodeLoop]
  | cons r rest ih =>
    cases r with
    | ok f =>
      have h1 : decodeLoop c acc (DecodeResult.ok f :: rest) =
          decodeLoop c (acc ++ [f]) rest := rfl
      have h2 : decodeLoop c [] (DecodeResult.ok f :: rest) =
          decodeLoop c [f] rest := rfl
      rw [h1, h2, ih (acc ++ [f]), ih [f]]
      cases decodeLoop c [] rest with
      | ok l => simp
      | error e => rfl
    | unexpectedEof => simp [decodeLoop]
    | malformed =>
      cases c with
      | false => simp [decodeLoop]
      | true =>
        have h1 : decodeLoop true acc (DecodeResult.malformed :: rest) =
            decodeLoop true acc rest := by
          simp [decodeLoop]
        have h2 : decodeLoop true [] (DecodeResult.malformed :: rest) =
            decodeLoop true [] rest := by
          simp [decodeLoop]
        rw [h1, h2, ih acc]

theorem stepStops_end_signal {s : ReadStep} (h : stepStops s = false) :
    s.end_signal = false := by
  unfold stepStops at h
  exact (Bool.or_eq_false_iff.mp h).1

/-- The outer read loop returns `Ok` with the frames captured so far
exactly when, after a run of non-stopping, non-fatal iterations, an
iteration observes the cancellation signal or an aborted/reset
connection. -/
theorem read_defmt_loop_ok_iff (c : Bool) (t : List ReadStep) :
    ∀ frames,
      (∃ out, read_defmt_loop c frames t =
        ReadLoopOutcome.done (Except.ok out)) ↔
      ∃ pre stp rest, t = pre ++ stp :: rest ∧
        (∀ u ∈ pre, stepStops u = false ∧ stepFatal c u = false) ∧
        stepStops stp = true := by
  induction t with
  | nil =>
    intro frames
    constructor
    · rintro ⟨out, h⟩
      cases h
    · rintro ⟨pre, stp, rest, he, _, _⟩
      cases pre <;> cases he
  | cons s rest ih =>
    intro frames
    have stopped : stepStops s = true →
        read_defmt_loop c frames (s :: rest) =
          ReadLoopOutcome.done (Except.ok frames) := by
      intro hstop
      obtain ⟨sig, res⟩ := s
      cases sig with
      | true => simp [read_defmt_loop]
      | false =>
        cases res <;> simp [stepStops] at hstop <;> simp [read_defmt_loop]
    have transfer : ∀ frames',
        read_defmt_loop c frames (s :: rest) =
          read_defmt_loop c frames' rest →
        stepStops s = false → stepFatal c s = false →
        ((∃ out, read_defmt_loop c frames (s :: rest) =
            ReadLoopOutcome.done (Except.ok out)) ↔
          ∃ pre stp rest', s :: rest = pre ++ stp :: rest' ∧
            (∀ u ∈ pre, stepStops u = false ∧ stepFatal c u = false) ∧
            stepStops stp = true) := by
      intro frames' hloop hstop hfat
      rw [hloop, ih frames']
      constructor
      · rintro ⟨pre, stp, rest', he, hpre, hstp⟩
        refine ⟨s :: pre, stp, rest', by rw [he]; rfl, ?_, hstp⟩
        intro u hu
        rcases List.mem_cons.mp hu with rfl | hu'
        · exact ⟨hstop, hfat⟩
        · exact hpre u hu'
      · rintro ⟨pre, stp, rest', he, hpre, hstp⟩
        cases pre with
        | nil =>
          injection he with h1 h2
          rw [← h1] at hstp
          rw [hstop] at hstp
          cases hstp
        | cons p pre' =>
          injection he with h1 h2
          refine ⟨pre', stp, rest', h2, ?_, hstp⟩
          intro u hu
          exact hpre u (List.mem_cons_of_mem p hu)
    by_cases hsig : s.end_signal = true
    · have hstop : stepStops s = true := by simp [stepStops, hsig]
      have hloop := stopped hstop
      rw [hloop]
      constructor
      · intro _
        exact ⟨[], s, rest, rfl,
          fun u hu => absurd hu (List.not_mem_nil u), hstop⟩
      · intro _
        exact ⟨frames, rfl⟩
    · have hsig' : s.end_signal = false := by
        cases hx : s.end_signal
        · rfl
        · exact absurd hx hsig
      cases hres : s.result with
      | data d =>
        cases hdec : decodeLoop c frames d with
        | ok frames' =>
          have hloop : read_defmt_loop c frames (s :: rest) =
              read_defmt_loop c frames' rest := by
            simp [read_defmt_loop, hsig', hres, hdec]
          have hok0 : (decodeLoop c [] d).isOk = true := by
            rw [decodeLoop_acc c frames d] at hdec
            cases h0 : decodeLoop c [] d with
            | ok l => rfl
            | error e =>
              rw [h0] at hdec
              cases hdec
          have hstop : stepStops s = false := by
            simp [stepStops, hsig', hres]
          have hfat : stepFatal c s = false := by
            simp [stepFatal, hsig', hres, hok0]
          exact transfer frames' hloop hstop hfat
        | error e =>
          have hloop : read_defmt_loop c frames (s :: rest) =
              ReadLoopOutcome.done (Except.error e) := by
            simp [read_defmt_loop, hsig', hres, hdec]
          have hbad0 : (decodeLoop c [] d).isOk = false := by
            rw [decodeLoop_acc c frames d] at hdec
            cases h0 : decodeLoop c [] d with
            | ok l =>
              rw [h0] at hdec
              cases hdec
            | error e' => rfl
          have hfat : stepFatal c s = true := by
            simp [stepFatal, hsig', hres, hbad0]
          constructor
          · rintro ⟨out, hout⟩
            rw [hloop] at hout
            injection hout with h'
            cases h'
          · rintro ⟨pre, stp, rest', he, hpre, hstp⟩
            cases pre with
            | nil =>
              injection he with h1 h2
              rw [← h1] at hstp
              have hstop : stepStops s = false := by
                simp [stepStops, hsig', hres]
              rw [hstop] at hstp
              cases hstp
            | cons p pre' =>
              injection he with h1 h2
              have hh := (hpre p (List.mem_cons_self p pre')).2
              rw [← h1] at hh
              rw [hfat] at hh
              cases hh
      | empty =>
        have hloop : read_defmt_loop c frames (s :: rest) =
            read_defmt_loop c frames rest := by
          simp [read_defmt_loop, hsig', hres]
        exact transfer frames hloop
          (by simp [stepStops, hsig', hres])
          (by simp [stepFatal, hsig', hres])
      | errTimedOut =>
        have hloop : read_defmt_loop c frames (s :: rest) =
            read_defmt_loop c frames rest := by
          simp [read_defmt_loop, hsig', hres]
        exact transfer frames hloop
          (by simp [stepStops, hsig', hres])
          (by simp [stepFatal, hsig', hres])
      | errAborted =>
        have hstop : stepStops s = true := by simp [stepStops, hres]
        have hloop := stopped hstop
        rw [hloop]
        constructor
        · intro _
          exact ⟨[], s, rest, rfl,
            fun u hu => absurd hu (List.not_mem_nil u), hstop⟩
        · intro _
          exact ⟨frames, rfl⟩
      | errReset =>
        have hstop : stepStops s = true := by simp [stepStops, hres]
        have hloop := stopped hstop
        rw [hloop]
        constructor
        · intro _
          exact ⟨[], s, rest, rfl,
            fun u hu => absurd hu (List.not_mem_nil u), hstop⟩
        · intro _
          exact ⟨frames, rfl⟩
      | errOther msg =>
        have hloop : read_defmt_loop c frames (s :: rest) =
            ReadLoopOutcome.done
              (Except.error (DefmtError.tcpError msg)) := by
          simp [read_defmt_loop, hsig', hres]
        have hfat : stepFatal c s = true := by
          simp [stepFatal, hsig', hres]
        constructor
        · rintro ⟨out, hout⟩
          rw [hloop] at hout
          injection hout with h'
          cases h'
        · rintro ⟨pre, stp, rest', he, hpre, hstp⟩
          cases pre with
          | nil =>
            injection he with h1 h2
            rw [← h1] at hstp
            have hstop : stepStops s = false := by
              simp [stepStops, hsig', hres]
            rw [hstop] at hstp
            cases hstp
          | cons p pre' =>
            injection he with h1 h2
            have hh := (hpre p (List.mem_cons_self p pre')).2
            rw [← h1] at hh
            rw [hfat] at hh
            cases hh

/-- Claim C7: the outer read loop returns `Ok` with the frames captured
so far exactly when the cancellation signal is observed at an iteration
check or the read fails with `ConnectionAborted`/`ConnectionReset` (the
clean close/reset kinds); a timed-out and a zero-length read are retried,
and any other read error aborts with a fatal `TcpError`. -/
theorem C7_outer_loop_termination (c : Bool) (frames : List DefmtFrame)
    (t : List ReadStep) (s : ReadStep) (msg : String) :
    (stepStops s = true →
      read_defmt_loop c frames (s :: t) =
        ReadLoopOutcome.done (Except.ok frames)) ∧
    (read_defmt_loop c frames (⟨false, ReadOutcome.errTimedOut⟩ :: t) =
      read_defmt_loop c frames t) ∧
    (read_defmt_loop c frames (⟨false, ReadOutcome.empty⟩ :: t) =
      read_defmt_loop c frames t) ∧
    (read_defmt_loop c frames (⟨false, ReadOutcome.errOther msg⟩ :: t) =
      ReadLoopOutcome.done (Except.error (DefmtError.tcpError msg))) ∧
    ((∃ out, read_defmt_loop c frames t =
        ReadLoopOutcome.done (Except.ok out)) ↔
      ∃ pre stp rest, t = pre ++ stp :: rest ∧
        (∀ u ∈ pre, stepStops u = false ∧ stepFatal c u = false) ∧
        stepStops stp = true) := by
  refine ⟨?_, rfl, rfl, rfl, read_defmt_loop_ok_iff c t frames⟩
  intro hstop
  obtain ⟨sig, res⟩ := s
  cases sig with
  | true => simp [read_defmt_loop]
  | false =>
    cases res <;> simp [stepStops] at hstop <;> simp [read_defmt_loop]

/-- Witness for C7: a cancellation signal observed on the first
iteration returns the (empty) captured frames as a success. -/
theorem C7_witness :
    read_defmt_loop false [] [⟨true, ReadOutcome.empty⟩] =
      ReadLoopOutcome.done (Except.ok []) :=
  (C7_outer_loop_termination false [] [] ⟨true, ReadOutcome.empty⟩ "").1
    (by decide)

end EmbeddedRunner
